import Mathlib

/-!
Verification development for the ND appellate-brief compliance checker.

Shallow embedding of the core logic of the repository:
  * core/models.py — data model (severities, recommendations, check results)
  * core/recommender.py — hard-rule pass and the escalation-only
    recommendation aggregator
  * core/brief_classifier.py — text normalization and fuzzy brief-type
    classification
  * core/checks_mechanical.py — font-span classification and the
    minimum-font-size / cover-color checks

Numeric font metadata (point sizes, page heights) is modelled with `ℚ`
(exact rationals in place of Python floats).  External collaborators
(the Claude advisory call) are modelled as oracle arguments: the oracle
value stands for the successfully parsed response of the collaborator;
JSON transport and exception handling around the call are not part of
the model (on any failure the Python code falls back to the hard-rule
recommendation, which the theorems about the oracle-free branches cover).
-/

namespace NDSC

/-- Embedding of `BriefType` from core/models.py. -/
inductive BriefType where
  | appellant
  | appellee
  | reply
  | cross_appeal
  | amicus
  | unknown
deriving DecidableEq, Repr

/-- Embedding of `Severity` from core/models.py (ordered by impact
NOTE < CORRECTION < REJECT). -/
inductive Severity where
  | note
  | correction
  | reject
deriving DecidableEq, Repr

/-- Embedding of `Recommendation` from core/models.py. -/
inductive Recommendation where
  | accept
  | correction_letter
  | reject
deriving DecidableEq, Repr

/-- The `.value` string of a `Recommendation` enum member. -/
def Recommendation.value : Recommendation → String
  | .accept => "accept"
  | .correction_letter => "correction_letter"
  | .reject => "reject"

/-- Embedding of the `CheckResult` dataclass from core/models.py
(`details` is optional as in the dataclass). -/
structure CheckResult where
  check_id : String
  name : String
  rule : String
  passed : Bool
  severity : Severity
  message : String
  details : Option String := none
  applicable : Bool := true
deriving DecidableEq, Repr

/-- Embedding of the `CheckResult.failed` property:
`not self.passed and self.applicable`. -/
def CheckResult.failed (r : CheckResult) : Bool :=
  !r.passed && r.applicable

/-- Embedding of `_rec_rank` from core/recommender.py: rank a
recommendation value string for comparison, defaulting to 0. -/
def recRank (value : String) : Nat :=
  if value = "accept" then 0
  else if value = "correction_letter" then 1
  else if value = "reject" then 2
  else 0

/-- Embedding of `max(a.value, b.value, key=_rec_rank)` followed by
`Recommendation(...)`: Python's two-argument `max` returns the first
argument on ties. -/
def recMax (a b : Recommendation) : Recommendation :=
  if recRank b.value > recRank a.value then b else a

/-- Embedding of `_hard_rule_pass` from core/recommender.py: REJECT on
any failed REJECT-severity result, else CORRECTION_LETTER on any failed
CORRECTION-severity result, else ACCEPT. -/
def hardRulePass (results : List CheckResult) : Recommendation :=
  let hasReject := results.any fun r => r.failed && decide (r.severity = Severity.reject)
  let hasCorrection := results.any fun r => r.failed && decide (r.severity = Severity.correction)
  if hasReject then .reject
  else if hasCorrection then .correction_letter
  else .accept

/-- The note appended by `_claude_weighting_pass` when the collaborator
attempts a downgrade. -/
def downgradeNote : String := " (Claude attempted to downgrade; overridden by hard rules.)"

/-- Embedding of `_claude_weighting_pass` from core/recommender.py, with
the external collaborator modelled as `oracle`, a function from the
failed findings (the data serialized into the prompt) to the parsed
proposal and its reasoning text.  If there are no failed findings the
collaborator is not consulted and `(ACCEPT, "All checks passed.")` is
returned; a proposal ranked below the hard-rule recommendation is
replaced by it and the override note is appended to the reasoning. -/
def claudeWeightingPass (results : List CheckResult) (hardRec : Recommendation)
    (oracle : List CheckResult → Recommendation × String) :
    Recommendation × String :=
  let failed := results.filter (·.failed)
  if failed = [] then (.accept, "All checks passed.")
  else
    let (claudeRec, reasoning) := oracle failed
    if recRank claudeRec.value < recRank hardRec.value then
      (hardRec, reasoning ++ downgradeNote)
    else
      (claudeRec, reasoning)

/-- The reasoning text built in the automatic-REJECT branch of
`compute_recommendation`. -/
def autoRejectReasoning (results : List CheckResult) : String :=
  let rejectChecks := results.filter fun r =>
    r.failed && decide (r.severity = Severity.reject)
  "Automatic REJECT due to " ++ toString rejectChecks.length
    ++ " critical failure(s): "
    ++ String.intercalate "; " (rejectChecks.map fun r => r.check_id ++ " (" ++ r.name ++ ")")

/-- Mirror of the condition under which `compute_recommendation` runs the
Claude weighting pass (`use_claude_weighting and hard_rec != REJECT`). -/
def claudePassInvoked (results : List CheckResult) (useClaudeWeighting : Bool) : Bool :=
  useClaudeWeighting && !(decide (hardRulePass results = Recommendation.reject))

/-- Embedding of `compute_recommendation` from core/recommender.py:
hard-rule pass first; the Claude weighting pass only when enabled and
the hard result is not already REJECT; the final recommendation is the
rank-maximum of the two. -/
def computeRecommendation (results : List CheckResult) (useClaudeWeighting : Bool)
    (oracle : List CheckResult → Recommendation × String) :
    Recommendation × String :=
  let hardRec := hardRulePass results
  if useClaudeWeighting && !(decide (hardRec = Recommendation.reject)) then
    let (claudeRec, reasoning) := claudeWeightingPass results hardRec oracle
    (recMax hardRec claudeRec, reasoning)
  else
    let reasoning :=
      if hardRec = Recommendation.reject then autoRejectReasoning results else ""
    (hardRec, reasoning)

/-!
## Text normalizer (core/brief_classifier.py: `_normalize` and
`_collapse_letter_spacing`)

Text is modelled as `List Char`.  Each `re.sub` stage of `_normalize` is
translated to a recursive scan with the same leftmost, non-overlapping,
greedy semantics as the Python pattern it embeds.
-/

/-- Model of `unicodedata.normalize("NFKD", ...)` restricted to the code
points exercised in this development (the fi / fl ligatures and the
precomposed e-acute mentioned in the source comments); identity on every
other character — in particular on all of ASCII, where true NFKD is also
the identity. -/
def nfkdChar (c : Char) : List Char :=
  if c = 'ﬁ' then ['f', 'i']
  else if c = 'ﬂ' then ['f', 'l']
  else if c = 'é' then ['e', '\u0301']
  else if c = 'É' then ['E', '\u0301']
  else [c]

/-- NFKD decomposition over a character list. -/
def nfkd (cs : List Char) : List Char := (cs.map nfkdChar).flatten

/-- Model of `unicodedata.combining(c) != 0` restricted to the combining
marks producible by `nfkdChar` (no ASCII character is combining). -/
def isCombining (c : Char) : Bool := c = '\u0301'

/-- Stage of `_normalize`: strip combining characters. -/
def stripCombining (cs : List Char) : List Char := cs.filter fun c => !isCombining c

/-- Character class of the zero-width / soft-hyphen removal pattern
(U+200B, U+200C, U+200D, U+FEFF, U+00AD). -/
def isZeroWidth (c : Char) : Bool :=
  c = '\u200B' || c = '\u200C' || c = '\u200D' || c = '\uFEFF' || c = '\u00AD'

/-- Stage of `_normalize`: remove zero-width characters. -/
def removeZeroWidth (cs : List Char) : List Char := cs.filter fun c => !isZeroWidth c

/-- Case-insensitive comparison against a lowercase pattern letter
(`re.IGNORECASE` on ASCII pattern letters). -/
def lowEq (c d : Char) : Bool := c.toLower = d

/-- Scan of `re.sub(r"brifi[f]?", "brief", text, flags=re.IGNORECASE)`:
leftmost, non-overlapping; the optional trailing `f` is consumed
greedily.  Structural recursion on a fuel equal to the input length
(every step consumes at least one character). -/
def brifiAux : Nat → List Char → List Char
  | 0, cs => cs
  | fuel + 1, cs =>
    match cs with
    | b :: r :: i1 :: f2 :: i2 :: rest =>
      if lowEq b 'b' && lowEq r 'r' && lowEq i1 'i' && lowEq f2 'f' && lowEq i2 'i' then
        match rest with
        | f3 :: rest2 =>
          if lowEq f3 'f' then 'b' :: 'r' :: 'i' :: 'e' :: 'f' :: brifiAux fuel rest2
          else 'b' :: 'r' :: 'i' :: 'e' :: 'f' :: brifiAux fuel (f3 :: rest2)
        | [] => ['b', 'r', 'i', 'e', 'f']
      else b :: brifiAux fuel (r :: i1 :: f2 :: i2 :: rest)
    | c :: t => c :: brifiAux fuel t
    | [] => []

/-- Embedding of `re.sub(r"brifi[f]?", "brief", text, flags=re.IGNORECASE)`. -/
def brifiSub (cs : List Char) : List Char := brifiAux cs.length cs

/-- Scan of `re.sub(r"bri[eé]f", "brief", text, flags=re.IGNORECASE)`:
leftmost, non-overlapping (the class `[eé]` under IGNORECASE also admits
the uppercase forms).  Structural recursion on a fuel equal to the input
length. -/
def briefSubAux : Nat → List Char → List Char
  | 0, cs => cs
  | fuel + 1, cs =>
    match cs with
    | b :: r :: i :: e :: f :: rest =>
      if lowEq b 'b' && lowEq r 'r' && lowEq i 'i'
          && (lowEq e 'e' || e = 'é' || e = 'É') && lowEq f 'f' then
        'b' :: 'r' :: 'i' :: 'e' :: 'f' :: briefSubAux fuel rest
      else b :: briefSubAux fuel (r :: i :: e :: f :: rest)
    | c :: t => c :: briefSubAux fuel t
    | [] => []

/-- Embedding of `re.sub(r"bri[eé]f", "brief", text, flags=re.IGNORECASE)`. -/
def briefSub (cs : List Char) : List Char := briefSubAux cs.length cs

/-- Character class of the single-quote-like removal pattern
(apostrophe, curly single quotes, backtick — listed twice in the Python
class, as itself and as an escape — acute accent, prime marks). -/
def isQuoteLike1 (c : Char) : Bool :=
  c = '\u0027' || c = '‘' || c = '’' || c = '‚' || c = '‛'
    || c = '\u0060' || c = '´' || c = '′' || c = '‵'

/-- Character class of the double-quote-like removal pattern
(straight and curly double quotes, guillemets, double primes). -/
def isQuoteLike2 (c : Char) : Bool :=
  c = '\u0022' || c = '“' || c = '”' || c = '„' || c = '‟'
    || c = '«' || c = '»' || c = '″' || c = '‶'

/-- Character class of the dash-like substitution pattern
`[‐‑‒–—―−﹘﹣－]`. -/
def isDashLike (c : Char) : Bool :=
  c = '‐' || c = '‑' || c = '‒' || c = '–' || c = '—'
    || c = '―' || c = '−' || c = '﹘' || c = '﹣' || c = '－'

/-- Stage of `_normalize`: remove every single-quote-like character. -/
def removeQuotes1 (cs : List Char) : List Char := cs.filter fun c => !isQuoteLike1 c

/-- Stage of `_normalize`: remove every double-quote-like character. -/
def removeQuotes2 (cs : List Char) : List Char := cs.filter fun c => !isQuoteLike2 c

/-- Stage of `_normalize`: replace every dash-like character with a hyphen. -/
def dashSub (cs : List Char) : List Char :=
  cs.map fun c => if isDashLike c then '-' else c

/-- Model of Python `str.lower()` (`Char.toLower` is the ASCII case map;
every theorem quantifying over text restricts it to ASCII). -/
def lowerChars (cs : List Char) : List Char := cs.map Char.toLower

/-- Whitespace recognised by Python's `\s` and `str.strip()` on ASCII:
space, tab, newline, carriage return, vertical tab, form feed. -/
def isPyWs (c : Char) : Bool :=
  c = ' ' || c = '\t' || c = '\n' || c = '\u000D' || c = '\u000B' || c = '\u000C'

/-- Model of Python `str.strip()`: drop leading and trailing whitespace. -/
def pyStrip (cs : List Char) : List Char :=
  ((cs.dropWhile isPyWs).reverse.dropWhile isPyWs).reverse

/-- The sentinel `"\x00"` used by `_collapse_letter_spacing`. -/
def sentinelChar : Char := '\u0000'

/-- Embedding of `re.sub(r" {2,}|\t|\n", "\x00", text)`: a maximal run of
two or more spaces, a tab, or a newline becomes one sentinel.  The
`inRun` flag is true while consuming the remainder of a space run
already replaced by a sentinel. -/
def sentAux : Nat → Bool → List Char → List Char
  | 0, _, cs => cs
  | _, _, [] => []
  | fuel + 1, inRun, c :: t =>
    if c = ' ' then
      if inRun then sentAux fuel true t
      else
        match t with
        | d :: t2 =>
          if d = ' ' then sentinelChar :: sentAux fuel true t2
          else ' ' :: sentAux fuel false (d :: t2)
        | [] => [' ']
    else if c = '\t' || c = '\n' then sentinelChar :: sentAux fuel false t
    else c :: sentAux fuel false t

/-- First stage of `_collapse_letter_spacing`. -/
def sentinelize (cs : List Char) : List Char := sentAux cs.length false cs

/-- Letter class `[a-zA-Z]` (spelled out as the two ASCII code-point
ranges of the pattern). -/
def isAsciiLetter (c : Char) : Bool :=
  (97 ≤ c.toNat && c.toNat ≤ 122) || (65 ≤ c.toNat && c.toNat ≤ 90)

/-- Number of leading letter-space pairs — the greedy repetition count
of `(?:[a-zA-Z] ){2,}`. -/
def countPairs : List Char → Nat
  | a :: b :: t => if isAsciiLetter a && b = ' ' then countPairs t + 1 else 0
  | _ => 0

/-- Characters at even offsets of a list (the letters of a letter-space
run, including the final letter). -/
def evenOffsets : List Char → List Char
  | [] => []
  | [c] => [c]
  | c :: _ :: t => c :: evenOffsets t

/-- Scan of `re.sub(r"(?:[a-zA-Z] ){2,}[a-zA-Z]", join, text)` with
Python's leftmost / greedy semantics, via fuel (the fuel is the input
length, enough for the whole scan since every step consumes at least one
character).  At each position: with `m` maximal letter-space pairs, the
greedy engine matches `m` pairs plus a following letter when there is
one; otherwise it backtracks to `m - 1` pairs ending on the last pair's
letter (which needs `m - 1 ≥ 2`); otherwise no match starts here and the
scan advances one character.  A match is replaced by its letters with
the spaces removed. -/
def joinRunsAux : Nat → List Char → List Char
  | 0, cs => cs
  | fuel + 1, cs =>
    match cs with
    | [] => []
    | c :: t =>
      let m := countPairs cs
      if m ≥ 2 && isAsciiLetter (cs.getD (2 * m) ' ') then
        evenOffsets (cs.take (2 * m + 1)) ++ joinRunsAux fuel (cs.drop (2 * m + 1))
      else if m ≥ 3 then
        evenOffsets (cs.take (2 * m - 1)) ++ joinRunsAux fuel (cs.drop (2 * m - 1))
      else c :: joinRunsAux fuel t

/-- Second stage of `_collapse_letter_spacing`: collapse letter-spaced runs. -/
def joinRuns (cs : List Char) : List Char := joinRunsAux cs.length cs

/-- Third stage of `_collapse_letter_spacing`:
`result.replace(sentinel, " ")`. -/
def desentinel (cs : List Char) : List Char :=
  cs.map fun c => if c = sentinelChar then ' ' else c

/-- Embedding of `_collapse_letter_spacing` from core/brief_classifier.py. -/
def collapseLetterSpacing (cs : List Char) : List Char :=
  desentinel (joinRuns (sentinelize cs))

/-- Embedding of `re.sub(r"\s+", " ", text)`: each maximal whitespace run
becomes a single space (`inWs` is true while inside a run already
replaced). -/
def wsCore (inWs : Bool) : List Char → List Char
  | [] => []
  | c :: t =>
    if isPyWs c then
      if inWs then wsCore true t else ' ' :: wsCore true t
    else c :: wsCore false t

/-- Final stage of `_normalize`: `re.sub(r"\s+", " ", text).strip()`. -/
def wsCollapse (cs : List Char) : List Char := pyStrip (wsCore false cs)

/-- Embedding of `_normalize` from core/brief_classifier.py — the full
pipeline. -/
def normalizeChars (cs : List Char) : List Char :=
  let a := stripCombining (nfkd cs)
  let b := removeZeroWidth a
  let c := briefSub (brifiSub b)
  let d := dashSub (removeQuotes2 (removeQuotes1 c))
  let e := pyStrip (lowerChars d)
  let f := collapseLetterSpacing e
  wsCollapse f

/-- The normalizer on `String`. -/
def normalizeStr (s : String) : String := ⟨normalizeChars s.data⟩

/-!
## Brief-type classifier (core/brief_classifier.py: `_match_brief_phrase`
and `_match_standalone`)

The fuzzy patterns are embedded as matchers in continuation-passing
style over `List Char`.  A matcher fragment takes a continuation for the
rest of the pattern and reports whether some parse of the fragment
followed by the continuation succeeds — exactly the existence semantics
of `re.search` for these boolean uses (no capture groups).  The two
patterns whose capture groups the source inspects (`"brief of ..."` and
`"... brief"`) are embedded separately below with Python's leftmost /
greedy / lazy match-selection order. -/

/-- Matcher fragments in continuation-passing style. -/
abbrev Frag := (List Char → Bool) → List Char → Bool

/-- Match one character satisfying a class. -/
def chrM (p : Char → Bool) (k : List Char → Bool) : List Char → Bool
  | [] => false
  | c :: t => p c && k t

/-- Match a literal character sequence. -/
def litM : List Char → (List Char → Bool) → List Char → Bool
  | [], k, cs => k cs
  | _ :: _, _, [] => false
  | a :: s, k, c :: t => c == a && litM s k t

/-- Optional fragment (`X?`); for boolean existence the greedy order is
immaterial. -/
def optM (m : Frag) (k : List Char → Bool) (cs : List Char) : Bool :=
  m k cs || k cs

/-- Bounded gap `.{0,n}` — up to `n` arbitrary characters, none of which
may be a newline (Python `.` without DOTALL). -/
def gapM : Nat → (List Char → Bool) → List Char → Bool
  | 0, k, cs => k cs
  | n + 1, k, cs =>
    k cs || (match cs with
      | c :: t => !(c == '\n') && gapM n k t
      | [] => false)

/-- Whitespace run `\s+` (one or more). -/
def wsPlusM (k : List Char → Bool) : List Char → Bool
  | [] => false
  | c :: t => isPyWs c && (k t || wsPlusM k t)

/-- Repetition `{1,2}` of a character class. -/
def rep12 (p : Char → Bool) (k : List Char → Bool) (cs : List Char) : Bool :=
  chrM p (fun t => k t || chrM p k t) cs

/-- Search: does the pattern match starting at some position
(`re.search` as a boolean)? -/
def searchM (m : List Char → Bool) : List Char → Bool
  | [] => m []
  | c :: t => m (c :: t) || searchM m t

/-- Character class `[il1!|f]` (the `_LL` fragment's letters: l, i, OCR
confusions, and fl-ligature residue). -/
def isLL (c : Char) : Bool :=
  c == 'i' || c == 'l' || c == '1' || c == '!' || c == '|' || c == 'f'

/-- Character class `[il1!|]` (the `_IL` fragment). -/
def isIL (c : Char) : Bool :=
  c == 'i' || c == 'l' || c == '1' || c == '!' || c == '|'

/-- Any character except newline (`.`). -/
def anyNonNl : Frag := chrM fun c => !(c == '\n')

/-- The `_BR` fragment `br[il1!|f]ef` (fuzzy "brief"). -/
def brF : Frag := fun k => litM "br".data (chrM isLL (litM "ef".data k))

/-- The `_p_appellant()` fragment `a ?p{1,2}e(?:[il1!|f]{1,2})[ae]nts?`. -/
def appellantF : Frag := fun k =>
  litM "a".data (optM (chrM (· == ' '))
    (rep12 (· == 'p') (litM "e".data (rep12 isLL
      (chrM (fun c => c == 'a' || c == 'e')
        (litM "nt".data (optM (chrM (· == 's')) k)))))))

/-- The `_p_appellee()` fragment `app?e(?:[il1!|f]{1,2})ees?`. -/
def appelleeF : Frag := fun k =>
  litM "ap".data (optM (chrM (· == 'p'))
    (litM "e".data (rep12 isLL (litM "ee".data (optM (chrM (· == 's')) k)))))

/-- The `_p_petitioner()` fragment `pet[il1!|]t[il1!|]on[ea]rs?`. -/
def petitionerF : Frag := fun k =>
  litM "pet".data (chrM isIL (litM "t".data (chrM isIL
    (litM "on".data (chrM (fun c => c == 'e' || c == 'a')
      (litM "r".data (optM (chrM (· == 's')) k)))))))

/-- The `_p_respondent()` fragment `resp[oa]n[dt]ents?`. -/
def respondentF : Frag := fun k =>
  litM "resp".data (chrM (fun c => c == 'o' || c == 'a')
    (litM "n".data (chrM (fun c => c == 'd' || c == 't')
      (litM "ent".data (optM (chrM (· == 's')) k)))))

/-- The `_p_reply()` fragment `rep[il1!|][yi1!|]`. -/
def replyF : Frag := fun k =>
  litM "rep".data (chrM isIL (chrM (fun c => c == 'y' || isIL c) k))

/-- The amicus-core fragment `am[il1!|].?c[ue][sz]`. -/
def amicusCoreF : Frag := fun k =>
  litM "am".data (chrM isIL (optM anyNonNl
    (litM "c".data (chrM (fun c => c == 'u' || c == 'e')
      (chrM (fun c => c == 's' || c == 'z') k)))))

/-- The cross-appeal fragment `cross[- ]?app?e[il1!|]{1,2}[ae]`. -/
def crossF : Frag := fun k =>
  litM "cross".data (optM (chrM (fun c => c == '-' || c == ' '))
    (litM "a".data (litM "p".data (optM (chrM (· == 'p'))
      (litM "e".data (rep12 isIL
        (chrM (fun c => c == 'a' || c == 'e') k)))))))

/-- The `(of\s+)?` sub-pattern. -/
def ofWsF : Frag := fun k => litM "of".data (wsPlusM k)

/-- The `(the\s+)?` sub-pattern. -/
def theWsF : Frag := fun k => litM "the".data (wsPlusM k)

/-- The `(in\s+)?` sub-pattern. -/
def inWsF : Frag := fun k => litM "in".data (wsPlusM k)

/-- The `friend.{0,5}(of\s+)?(the\s+)?court` fragment shared by the
amicus patterns. -/
def friendCourtF : Frag := fun k =>
  litM "friend".data (gapM 5 (optM ofWsF (optM theWsF (litM "court".data k))))

/-- Trivial continuation: the pattern ends here. -/
def matchEnd : List Char → Bool := fun _ => true

/-- Search for `am[il1!|].?c[ue][sz].{0,20}br[il1!|f]ef`. -/
def amicusSearch1 (cs : List Char) : Bool := searchM (amicusCoreF (gapM 20 (brF matchEnd))) cs

/-- Search for `br[il1!|f]ef.{0,20}am[il1!|].?c[ue][sz]`. -/
def amicusSearch2 (cs : List Char) : Bool := searchM (brF (gapM 20 (amicusCoreF matchEnd))) cs

/-- Search for `friend.{0,5}(of\s+)?(the\s+)?court.{0,15}br[il1!|f]ef`. -/
def amicusSearch3 (cs : List Char) : Bool := searchM (friendCourtF (gapM 15 (brF matchEnd))) cs

/-- Search for `br[il1!|f]ef.{0,15}friend.{0,5}(of\s+)?(the\s+)?court`. -/
def amicusSearch4 (cs : List Char) : Bool := searchM (brF (gapM 15 (friendCourtF matchEnd))) cs

/-- Search for `am[il1!|].?c[ue][sz]\s+br[il1!|f]ef`. -/
def amicusSearch5 (cs : List Char) : Bool := searchM (amicusCoreF (wsPlusM (brF matchEnd))) cs

/-- Search for `rep[il1!|][yi1!|].{0,10}br[il1!|f]ef`. -/
def replySearch1 (cs : List Char) : Bool := searchM (replyF (gapM 10 (brF matchEnd))) cs

/-- Search for `br[il1!|f]ef.{0,10}(in\s+)?rep[il1!|][yi1!|]`. -/
def replySearch2 (cs : List Char) : Bool := searchM (brF (gapM 10 (optM inWsF (replyF matchEnd)))) cs

/-- Search for `cross[- ]?app?e[il1!|]{1,2}[ae].{0,15}br[il1!|f]ef`. -/
def crossSearch1 (cs : List Char) : Bool := searchM (crossF (gapM 15 (brF matchEnd))) cs

/-- Search for `br[il1!|f]ef.{0,15}cross[- ]?app?e[il1!|]{1,2}[ae]`. -/
def crossSearch2 (cs : List Char) : Bool := searchM (brF (gapM 15 (crossF matchEnd))) cs

/-- Plain search for the cross-appeal fragment. -/
def crossSearch (cs : List Char) : Bool := searchM (crossF matchEnd) cs

/-- Plain search for the appellee fragment. -/
def appelleeSearch (cs : List Char) : Bool := searchM (appelleeF matchEnd) cs

/-- Plain search for the respondent fragment. -/
def respondentSearch (cs : List Char) : Bool := searchM (respondentF matchEnd) cs

/-- Plain search for the appellant fragment. -/
def appellantSearch (cs : List Char) : Bool := searchM (appellantF matchEnd) cs

/-- Plain search for the petitioner fragment. -/
def petitionerSearch (cs : List Char) : Bool := searchM (petitionerF matchEnd) cs

/-- Plain search for the amicus-core fragment. -/
def amicusStandaloneSearch (cs : List Char) : Bool := searchM (amicusCoreF matchEnd) cs

/-- Plain search for the friend-of-the-court fragment. -/
def friendCourtSearch (cs : List Char) : Bool := searchM (friendCourtF matchEnd) cs

/-- Length of the maximal leading whitespace run. -/
def wsRunLen : List Char → Nat
  | c :: t => if isPyWs c then wsRunLen t + 1 else 0
  | _ => 0

/-- Alternative `\s*[,\n]` of the group-2 terminator: some whitespace,
then a comma or newline. -/
def termAlt1 : List Char → Bool
  | [] => false
  | c :: t => (c == ',' || c == '\n') || (isPyWs c && termAlt1 t)

/-- The terminator `(?:\s*[,\n]|\s{2,}|$)` of the `"brief of ..."`
pattern, applied to the remaining input (`$` matches at the end of the
string or just before a single trailing newline). -/
def termAt (cs : List Char) : Bool :=
  termAlt1 cs || wsRunLen cs ≥ 2 || cs.isEmpty || cs == ['\n']

/-- The lazy capture `(.{1,40}?)` followed by the terminator: the
shortest nonempty newline-free prefix after which the terminator
matches, if any (`n` is the remaining repetition budget). -/
def lazyDot : Nat → List Char → Option (List Char)
  | 0, _ => none
  | _ + 1, [] => none
  | n + 1, c :: t =>
    if c == '\n' then none
    else if termAt t then some [c]
    else (lazyDot n t).map (c :: ·)

/-- Remainders after consuming `\s+`, in greedy (longest-first)
backtracking order; empty when no whitespace leads. -/
def wsPlusTailsGreedy (cs : List Char) : List (List Char) :=
  let r := wsRunLen cs
  (List.range r).map fun i => cs.drop (r - i)

/-- Candidate remainders for `(the\s+)?`, greedy order: the branches
that consume `the` plus whitespace first (longest whitespace first),
then the branch that skips the optional group. -/
def theCandidates (cs : List Char) : List (List Char) :=
  (match cs with
    | 't' :: 'h' :: 'e' :: rest => wsPlusTailsGreedy rest
    | _ => []) ++ [cs]

/-- Anchored attempt of
`br[il1!|f]ef\s+of\s+(the\s+)?(.{1,40}?)(?:\s*[,\n]|\s{2,}|$)` at the
head of the input, returning group 2 of the first match in Python's
backtracking order (outer quantifiers greedy, the capture lazy). -/
def briefOfTry (cs : List Char) : Option (List Char) :=
  match cs with
  | b :: r :: x :: e :: f :: rest =>
    if b == 'b' && r == 'r' && isLL x && e == 'e' && f == 'f' then
      (wsPlusTailsGreedy rest).findSome? fun afterWs1 =>
        match afterWs1 with
        | 'o' :: 'f' :: rest2 =>
          (wsPlusTailsGreedy rest2).findSome? fun afterWs2 =>
            (theCandidates afterWs2).findSome? fun start => lazyDot 40 start
        | _ => none
    else none
  | _ => none

/-- Leftmost search for the `"brief of ..."` pattern: group 2 of the
match at the first viable starting position. -/
def briefOfSearch : List Char → Option (List Char)
  | [] => none
  | c :: t =>
    match briefOfTry (c :: t) with
    | some g => some g
    | none => briefOfSearch t

/-- Split on whitespace into maximal nonempty tokens (fuel-structural;
the fuel is the input length). -/
def splitTokAux : Nat → List Char → List (List Char)
  | 0, _ => []
  | _ + 1, [] => []
  | fuel + 1, c :: t =>
    if isPyWs c then splitTokAux fuel t
    else (c :: t.takeWhile (fun d => !isPyWs d)) :: splitTokAux fuel (t.dropWhile fun d => !isPyWs d)

/-- Whitespace-separated tokens of the text. -/
def splitWsTokens (cs : List Char) : List (List Char) := splitTokAux cs.length cs

/-- Does a token start with the fuzzy `br[il1!|f]ef`? -/
def startsWithBRtok : List Char → Bool
  | b :: r :: x :: e :: f :: _ => b == 'b' && r == 'r' && isLL x && e == 'e' && f == 'f'
  | _ => false

/-- First token immediately preceding a token that starts with the
fuzzy "brief". -/
def tokenBeforeBR : List (List Char) → Option (List Char)
  | t1 :: t2 :: rest => if startsWithBRtok t2 then some t1 else tokenBeforeBR (t2 :: rest)
  | _ => none

/-- Group 1 of the leftmost match of `(\S+(?:-\S+)*)\s+br[il1!|f]ef`.
Since `\S` already admits hyphens, the group is a maximal
non-whitespace run; greedy matching and leftmost selection make it the
first whole token immediately followed by a "brief"-initial token. -/
def xBriefBefore (cs : List Char) : Option (List Char) :=
  tokenBeforeBR (splitWsTokens cs)

/-- Embedding of `_match_brief_phrase` from core/brief_classifier.py:
pass 1 of the classifier, on already-normalized text. -/
def matchBriefPhrase (cs : List Char) : BriefType :=
  if amicusSearch1 cs || amicusSearch2 cs || amicusSearch3 cs
      || amicusSearch4 cs || amicusSearch5 cs then .amicus
  else if replySearch1 cs || replySearch2 cs then .reply
  else if crossSearch1 cs || crossSearch2 cs then .cross_appeal
  else
    let afterOfStep : BriefType :=
      match xBriefBefore cs with
      | some before =>
        if appelleeSearch before || respondentSearch before then .appellee
        else if appellantSearch before || petitionerSearch before then .appellant
        else .unknown
      | none => .unknown
    match briefOfSearch cs with
    | some after =>
      if crossSearch after then .cross_appeal
      else if appelleeSearch after || respondentSearch after then .appellee
      else if appellantSearch after || petitionerSearch after then .appellant
      else afterOfStep
    | none => afterOfStep

/-- Embedding of `_match_standalone` from core/brief_classifier.py:
pass 2 (fallback) of the classifier — standalone amicus and cross-appeal
labels only; appellant / appellee are deliberately never guessed. -/
def matchStandalone (cs : List Char) : BriefType :=
  if amicusStandaloneSearch cs then .amicus
  else if friendCourtSearch cs then .amicus
  else if crossSearch cs then .cross_appeal
  else .unknown

/-- Classification of normalized cover text: pass 1, falling back to
pass 2 when pass 1 yields UNKNOWN (the two-pass body of
`classify_brief`). -/
def classifyCover (cs : List Char) : BriefType :=
  let t := normalizeChars cs
  let result := matchBriefPhrase t
  if result ≠ .unknown then result else matchStandalone t

/-!
## Page / metadata model and mechanical checks
(core/models.py, core/constants.py, core/checks_mechanical.py)
-/

/-- Embedding of a font-span dict as produced by PDF extraction.  The
source accesses `font["size"]` directly and every other key through
`.get` with a default, so only `size` is a required field here; the
various `.get` defaults are applied at the use sites, as in the code. -/
structure FontSpan where
  size : ℚ
  flags : Option Nat := none
  chars : Option Nat := none
  text : Option String := none
  origin_y : Option ℚ := none
deriving DecidableEq, Repr

/-- Embedding of the `PageInfo` dataclass from core/models.py. -/
structure PageInfo where
  page_number : Nat
  width_inches : ℚ
  height_inches : ℚ
  left_margin_inches : ℚ
  right_margin_inches : ℚ
  top_margin_inches : ℚ
  bottom_margin_inches : ℚ
  fonts : List FontSpan := []
  line_spacing : Option ℚ := none
  text : String := ""
  has_page_number_bottom : Bool := false
  page_number_text : Option String := none
deriving DecidableEq, Repr

/-- Embedding of the `BriefMetadata` dataclass from core/models.py. -/
structure BriefMetadata where
  brief_type : BriefType := .unknown
  total_pages : Nat := 0
  body_pages : Nat := 0
  addendum_start_page : Option Nat := none
  cover_text : String := ""
  full_text : String := ""
  pages : List PageInfo := []
  min_font_size : Option ℚ := none
  predominant_font : Option String := none
  predominant_font_size : Option ℚ := none
  has_double_spacing : Bool := true
  word_count : Nat := 0
deriving DecidableEq, Repr

/-- Embedding of `classify_brief` from core/brief_classifier.py. -/
def classifyBrief (md : BriefMetadata) : BriefType :=
  classifyCover md.cover_text.data

/-- Constant `MIN_FONT_SIZE_PT = 12.0` from core/constants.py. -/
def MIN_FONT_SIZE_PT : ℚ := 12

/-- Constant `FONT_SIZE_TOLERANCE = 0.3` from core/constants.py. -/
def FONT_SIZE_TOLERANCE : ℚ := 3 / 10

/-- Constant `FONT_NONCOMPLIANT_THRESHOLD = 10` from core/constants.py
(chars per page: at least this count is REJECT, below is NOTE). -/
def FONT_NONCOMPLIANT_THRESHOLD : Nat := 10

/-- Modelled from the spec: `SMALL_CAPS_SIZE_RATIO_MIN` is imported by
core/checks_mechanical.py but missing from core/constants.py in the
repository.  The spec fixes the small-caps band as "ratio exactly 0.55
and exactly 0.85 both classify as small_caps; 0.54 and 0.86 do not", so
the lower bound is 0.55 (the repository's own tests expect the same
boundary). -/
def SMALL_CAPS_SIZE_RATIO_MIN : ℚ := 11 / 20

/-- Modelled from the spec: `SMALL_CAPS_SIZE_RATIO_MAX` is imported by
core/checks_mechanical.py but missing from core/constants.py in the
repository; per the spec's boundary statement the upper bound is 0.85. -/
def SMALL_CAPS_SIZE_RATIO_MAX : ℚ := 17 / 20

/-- Modelled from the spec: `SMALL_CAPS_SUSPICIOUS_PAGE_PCT` is imported
by core/checks_mechanical.py but missing from core/constants.py; the
spec calls it a configurable per-page percentage threshold, and the
repository's tests (src/tests/test_font_size_check.py) pin it at 15
("200 small-caps chars out of 1000 total = 20% → above 15% threshold"). -/
def SMALL_CAPS_SUSPICIOUS_PAGE_PCT : ℚ := 15

/-- Category returned by `_classify_font_span`. -/
inductive SpanCategory where
  | header_footer
  | superscript
  | small_caps
  | body
deriving DecidableEq, Repr

/-- Embedding of `_is_all_uppercase` from core/checks_mechanical.py:
true iff the text has at least one alphabetic character and every
alphabetic character is uppercase (`Char.isAlpha` / `Char.isUpper` model
`str.isalpha` / `str.isupper` on the ASCII text used here). -/
def isAllUppercase (cs : List Char) : Bool :=
  let alpha := cs.filter Char.isAlpha
  !alpha.isEmpty && alpha.all Char.isUpper

/-- Embedding of `_classify_font_span` from core/checks_mechanical.py.
Priority order: header/footer zone (top or bottom 10% of the page) —
superscript flag bit 0 — short (at most 4 chars) undersized span —
small-caps band test (only with a positive predominant size and
non-empty all-uppercase text) — body. -/
def classifySpan (f : FontSpan) (pageHeightPts : ℚ) (predominantSize : Option ℚ) :
    SpanCategory :=
  let originY := f.origin_y.getD (pageHeightPts / 2)
  let topZone := pageHeightPts * (10 / 100)
  let bottomZone := pageHeightPts * (90 / 100)
  if originY ≤ topZone || originY ≥ bottomZone then .header_footer
  else if f.flags.getD 0 % 2 == 1 then .superscript
  else if f.chars.getD 0 ≤ 4 && decide (f.size < MIN_FONT_SIZE_PT - FONT_SIZE_TOLERANCE) then
    .superscript
  else
    match predominantSize with
    | some p =>
      if p > 0 then
        let text := (f.text.getD "").data
        if !text.isEmpty && isAllUppercase text then
          let ratio := f.size / p
          if SMALL_CAPS_SIZE_RATIO_MIN ≤ ratio && ratio ≤ SMALL_CAPS_SIZE_RATIO_MAX then
            .small_caps
          else .body
        else .body
      else .body
    | none => .body

/-- Search of the pattern `(?i)respectfully\s+submitted` (case folded
before matching, equivalent to the inline flag on ASCII). -/
def respectfullySearch (cs : List Char) : Bool :=
  searchM (litM "respectfully".data (wsPlusM (litM "submitted".data matchEnd)))
    (lowerChars cs)

/-- Search of `(?i)certificate\s+of\s+(service|compliance|mailing)`. -/
def certificateSearch (cs : List Char) : Bool :=
  searchM (litM "certificate".data (wsPlusM (litM "of".data (wsPlusM fun t =>
    litM "service".data matchEnd t || litM "compliance".data matchEnd t
      || litM "mailing".data matchEnd t)))) (lowerChars cs)

/-- Search of `(?i)table\s+of\s+(contents|authorities)`. -/
def tableSearch (cs : List Char) : Bool :=
  searchM (litM "table".data (wsPlusM (litM "of".data (wsPlusM fun t =>
    litM "contents".data matchEnd t || litM "authorities".data matchEnd t))))
    (lowerChars cs)

/-- Embedding of `_is_conventional_small_caps_page` from
core/checks_mechanical.py: the cover page (index 0) or a page whose text
matches one of the conventional patterns. -/
def isConventionalSmallCapsPage (p : PageInfo) (pageIdx : Nat) : Bool :=
  pageIdx == 0 || respectfullySearch p.text.data || certificateSearch p.text.data
    || tableSearch p.text.data

/-- Per-page entry of `page_issues` built by `_check_font_size_per_page`. -/
structure PageIssue where
  page : Nat
  total_chars : Nat
  nc_total : Nat
  nc_body : Nat
  nc_hf : Nat
  nc_super : Nat
  nc_small_caps : Nat
  min_size : Option ℚ
deriving DecidableEq, Repr

/-- Running tally of the span loop of `_check_font_size_per_page`. -/
structure SpanTally where
  total : Nat := 0
  body : Nat := 0
  hf : Nat := 0
  sup : Nat := 0
  sc : Nat := 0
  minSize : Option ℚ := none
deriving DecidableEq, Repr

/-- One step of the span loop: count every span's chars (default 1 per
`f.get("chars", 1)`), and bucket the chars of spans below the size
threshold by their classification, tracking the smallest such size. -/
def spanStep (pageHeightPts : ℚ) (predominant : Option ℚ) (st : SpanTally)
    (f : FontSpan) : SpanTally :=
  let cc := f.chars.getD 1
  let st := { st with total := st.total + cc }
  if f.size < MIN_FONT_SIZE_PT - FONT_SIZE_TOLERANCE then
    let st :=
      match classifySpan f pageHeightPts predominant with
      | .header_footer => { st with hf := st.hf + cc }
      | .superscript => { st with sup := st.sup + cc }
      | .small_caps => { st with sc := st.sc + cc }
      | .body => { st with body := st.body + cc }
    { st with
      minSize := some (match st.minSize with
        | none => f.size
        | some m => if f.size < m then f.size else m) }
  else st

/-- Per-page computation of `_check_font_size_per_page`: the span loop,
then the location-aware small-caps reweighting (on a non-conventional
page whose small-caps chars exceed the suspicious percentage of the
page total, they are reclassified as body), yielding a `PageIssue` when
any noncompliant chars remain.  Pages with no font spans are skipped. -/
def pageIssueOf (predominant : Option ℚ) (p : PageInfo) : Option PageIssue :=
  if p.fonts.isEmpty then none
  else
    let pageHeightPts := p.height_inches * 72
    let st := p.fonts.foldl (spanStep pageHeightPts predominant) {}
    let reweight :=
      st.sc > 0 && !isConventionalSmallCapsPage p p.page_number && st.total > 0
        && decide ((st.sc : ℚ) / (st.total : ℚ) * 100 > SMALL_CAPS_SUSPICIOUS_PAGE_PCT)
    let ncBody := if reweight then st.body + st.sc else st.body
    let ncSc := if reweight then 0 else st.sc
    let ncTotal := ncBody + st.hf + st.sup + ncSc
    if ncTotal > 0 then
      some { page := p.page_number + 1, total_chars := st.total, nc_total := ncTotal,
             nc_body := ncBody, nc_hf := st.hf, nc_super := st.sup,
             nc_small_caps := ncSc, min_size := st.minSize }
    else none

/-- The `page_issues` list of `_check_font_size_per_page`. -/
def fontPageIssues (md : BriefMetadata) : List PageIssue :=
  md.pages.filterMap (pageIssueOf md.predominant_font_size)

/-- Embedding of `_check_font_size_per_page` (check FMT-006) from
core/checks_mechanical.py, for the fields the claims are about: id,
name, rule, passed and severity.  With no page issues, or with a zero
global body-violation count, the check passes; otherwise it fails with
severity REJECT when some page's body-violation count reaches
`FONT_NONCOMPLIANT_THRESHOLD` and NOTE otherwise.  The `message` /
`details` strings (pure numeric formatting of these same counts) are
not modelled and are embedded as the empty string / `none`. -/
def fontSizeCheck (md : BriefMetadata) : CheckResult :=
  let issues := fontPageIssues md
  if issues.isEmpty then
    { check_id := "FMT-006", name := "Minimum Font Size", rule := "32(a)(5)",
      passed := true, severity := .reject, message := "" }
  else
    let totalBody : Nat := (issues.map (·.nc_body)).sum
    if totalBody = 0 then
      { check_id := "FMT-006", name := "Minimum Font Size", rule := "32(a)(5)",
        passed := true, severity := .reject, message := "" }
    else
      let anySerious := issues.any fun pi => pi.nc_body ≥ FONT_NONCOMPLIANT_THRESHOLD
      { check_id := "FMT-006", name := "Minimum Font Size", rule := "32(a)(5)",
        passed := false,
        severity := if anySerious then .reject else .note, message := "" }

/-- The `.value` string of a `BriefType` enum member. -/
def BriefType.value : BriefType → String
  | .appellant => "appellant"
  | .appellee => "appellee"
  | .reply => "reply"
  | .cross_appeal => "cross_appeal"
  | .amicus => "amicus"
  | .unknown => "unknown"

/-- Embedding of the `COVER_COLORS` table from core/constants.py —
Rule 32(a)(2) cover colors by brief type; no entry for UNKNOWN. -/
def COVER_COLORS : BriefType → Option String
  | .appellant => some "blue"
  | .appellee => some "red"
  | .reply => some "gray"
  | .cross_appeal => some "gray"
  | .amicus => some "green"
  | .unknown => none

/-- Embedding of `_check_cover_color` (check COV-001) from
core/checks_mechanical.py: always passes (physical cover color cannot be
read from a PDF); marked inapplicable when `COVER_COLORS` has no entry
for the brief type.  (The Python truthiness test `if expected:` agrees
with the `Option` match because every color string in the table is
nonempty.) -/
def checkCoverColor (md : BriefMetadata) : CheckResult :=
  match COVER_COLORS md.brief_type with
  | some expected =>
    { check_id := "COV-001", name := "Cover Color", rule := "32(a)(2)",
      passed := true, severity := .correction,
      message := "Cover color should be " ++ expected ++ " for "
        ++ md.brief_type.value ++ " brief. Cannot verify from PDF; manual check required.",
      details := some "PDF analysis cannot detect physical cover color." }
  | none =>
    { check_id := "COV-001", name := "Cover Color", rule := "32(a)(2)",
      passed := true, severity := .correction,
      message := "Cover color check not applicable (unknown brief type).",
      applicable := false }


/-!
## Theorems about the recommendation aggregator, the font-span
classifier, the font-size check and the cover-color check
-/

/-- Any failed result in a list makes the failed-filter nonempty. -/
theorem filter_failed_ne_nil {results : List CheckResult}
    (h : results.any CheckResult.failed = true) :
    results.filter CheckResult.failed ≠ [] := by
  simp only [List.any_eq_true] at h
  obtain ⟨r, hr, hf⟩ := h
  simp only [ne_eq, List.filter_eq_nil_iff, not_forall]
  exact ⟨r, hr, by simp [hf]⟩

/-- A CORRECTION_LETTER hard-rule outcome requires some failed result. -/
theorem hardRulePass_correction_any {results : List CheckResult}
    (h : hardRulePass results = Recommendation.correction_letter) :
    results.any CheckResult.failed = true := by
  unfold hardRulePass at h
  by_cases h1 : (results.any fun r => r.failed && decide (r.severity = Severity.reject)) = true
  · simp [h1] at h
  · by_cases h2 : (results.any fun r => r.failed && decide (r.severity = Severity.correction)) = true
    · simp only [List.any_eq_true, Bool.and_eq_true] at h2 ⊢
      obtain ⟨r, hr, hf, _⟩ := h2
      exact ⟨r, hr, hf⟩
    · simp [h1, h2] at h

/-- Claim C2: for every list of check results, `_hard_rule_pass` returns
REJECT iff some result is failed with REJECT severity; otherwise
CORRECTION_LETTER iff some result is failed with CORRECTION severity;
otherwise ACCEPT. -/
theorem hardRulePass_spec (results : List CheckResult) :
    (hardRulePass results = Recommendation.reject ↔
      ∃ r ∈ results, r.failed = true ∧ r.severity = Severity.reject) ∧
    (hardRulePass results = Recommendation.correction_letter ↔
      (¬∃ r ∈ results, r.failed = true ∧ r.severity = Severity.reject) ∧
      ∃ r ∈ results, r.failed = true ∧ r.severity = Severity.correction) ∧
    (hardRulePass results = Recommendation.accept ↔
      (¬∃ r ∈ results, r.failed = true ∧ r.severity = Severity.reject) ∧
      ¬∃ r ∈ results, r.failed = true ∧ r.severity = Severity.correction) := by
  have hR : (results.any fun r => r.failed && decide (r.severity = Severity.reject)) = true ↔
      ∃ r ∈ results, r.failed = true ∧ r.severity = Severity.reject := by
    simp [List.any_eq_true]
  have hC : (results.any fun r => r.failed && decide (r.severity = Severity.correction)) = true ↔
      ∃ r ∈ results, r.failed = true ∧ r.severity = Severity.correction := by
    simp [List.any_eq_true]
  unfold hardRulePass
  by_cases hE1 : ∃ r ∈ results, r.failed = true ∧ r.severity = Severity.reject
  · have h1 : (results.any fun r => r.failed && decide (r.severity = Severity.reject)) = true :=
      hR.mpr hE1
    simp [h1, hE1]
  · have h1 : (results.any fun r => r.failed && decide (r.severity = Severity.reject)) = false := by
      rw [← Bool.not_eq_true, hR]; exact hE1
    by_cases hE2 : ∃ r ∈ results, r.failed = true ∧ r.severity = Severity.correction
    · have h2 : (results.any fun r => r.failed && decide (r.severity = Severity.correction)) = true :=
        hC.mpr hE2
      simp [h1, h2, hE1, hE2]
    · have h2 : (results.any fun r => r.failed && decide (r.severity = Severity.correction)) = false := by
        rw [← Bool.not_eq_true, hC]; exact hE2
      simp [h1, h2, hE1, hE2]

theorem recMax_self (a : Recommendation) : recMax a a = a := by
  cases a <;> rfl

theorem recMax_eq_left {a b : Recommendation}
    (h : recRank b.value ≤ recRank a.value) : recMax a b = a := by
  unfold recMax
  rw [if_neg]
  omega

theorem recRank_le_recMax (a b : Recommendation) :
    recRank a.value ≤ recRank (recMax a b).value := by
  unfold recMax
  split
  · omega
  · exact le_refl _

theorem recRank_le_two (a : Recommendation) : recRank a.value ≤ 2 := by
  cases a <;> simp [recRank, Recommendation.value]

theorem claudeWeightingPass_nil {results : List CheckResult} (H : Recommendation)
    (oracle : List CheckResult → Recommendation × String)
    (hfil : results.filter CheckResult.failed = []) :
    claudeWeightingPass results H oracle = (.accept, "All checks passed.") := by
  unfold claudeWeightingPass
  rw [if_pos hfil]

theorem claudeWeightingPass_oracle {results : List CheckResult} (H P : Recommendation)
    (R : String) (hfil : results.filter CheckResult.failed ≠ []) :
    claudeWeightingPass results H (fun _ => (P, R)) =
      if recRank P.value < recRank H.value then (H, R ++ downgradeNote) else (P, R) := by
  unfold claudeWeightingPass
  rw [if_neg hfil]

theorem computeRecommendation_ofReject {results : List CheckResult}
    (h : hardRulePass results = Recommendation.reject) (u : Bool)
    (oracle : List CheckResult → Recommendation × String) :
    computeRecommendation results u oracle
      = (Recommendation.reject, autoRejectReasoning results) := by
  unfold computeRecommendation
  rw [if_neg (by simp [h]), h, if_pos rfl]

theorem computeRecommendation_ofNotReject {results : List CheckResult}
    (h : hardRulePass results ≠ Recommendation.reject)
    (oracle : List CheckResult → Recommendation × String) :
    computeRecommendation results true oracle =
      (recMax (hardRulePass results)
        (claudeWeightingPass results (hardRulePass results) oracle).1,
       (claudeWeightingPass results (hardRulePass results) oracle).2) := by
  unfold computeRecommendation
  rw [if_pos (by simp [h])]

/-- Claim C1: for every list of check results and every advisory proposal
`P` with reasoning `R`, writing `H` for the hard-rule outcome, the final
recommendation of `compute_recommendation` is never ranked below `H`;
whenever the advisory collaborator is actually consulted (some check
failed), the final recommendation is exactly the rank-maximum of `H` and
`P`; and whenever `P` is ranked below `H` in a run that reaches the
weighting pass (`H` is not already REJECT), the proposal is overridden
and the override note is appended to the reasoning text. -/
theorem computeRecommendation_escalation (results : List CheckResult)
    (P : Recommendation) (R : String) :
    recRank (hardRulePass results).value
        ≤ recRank (computeRecommendation results true fun _ => (P, R)).1.value
    ∧ (results.any CheckResult.failed = true →
        (computeRecommendation results true fun _ => (P, R)).1
          = recMax (hardRulePass results) P)
    ∧ (recRank P.value < recRank (hardRulePass results).value →
        hardRulePass results ≠ Recommendation.reject →
        (computeRecommendation results true fun _ => (P, R)).2 = R ++ downgradeNote) := by
  by_cases hrej : hardRulePass results = Recommendation.reject
  · rw [computeRecommendation_ofReject hrej]
    refine ⟨by rw [hrej], fun _ => ?_, fun _ hne => absurd hrej hne⟩
    rw [hrej]
    exact (recMax_eq_left (le_trans (recRank_le_two P) (by simp [recRank, Recommendation.value]))).symm
  · rw [computeRecommendation_ofNotReject hrej]
    by_cases hfil : results.filter CheckResult.failed = []
    · rw [claudeWeightingPass_nil _ _ hfil]
      refine ⟨?_, fun hany => ?_, fun hlt hne => ?_⟩
      · exact recRank_le_recMax (hardRulePass results) Recommendation.accept
      · exact absurd hfil (filter_failed_ne_nil hany)
      · have hcl : hardRulePass results = Recommendation.correction_letter := by
          cases h : hardRulePass results
          · rw [h] at hlt; simp [recRank, Recommendation.value] at hlt
          · rfl
          · exact absurd h hrej
        exact absurd hfil (filter_failed_ne_nil (hardRulePass_correction_any hcl))
    · rw [claudeWeightingPass_oracle _ _ _ hfil]
      by_cases hlt : recRank P.value < recRank (hardRulePass results).value
      · rw [if_pos hlt]
        refine ⟨?_, fun _ => ?_, fun _ _ => rfl⟩
        · simp only [recMax_self]; exact le_refl _
        · simp only [recMax_self]; exact (recMax_eq_left (le_of_lt hlt)).symm
      · rw [if_neg hlt]
        exact ⟨recRank_le_recMax _ _, fun _ => rfl, fun h _ => absurd h hlt⟩

/-- Witness for C1 at a concrete run: one failed CORRECTION check and an
ACCEPT proposal — the final recommendation is the rank-maximum (the
hard-rule CORRECTION_LETTER) and the downgrade note is appended. -/
theorem computeRecommendation_escalation_witness :
    (computeRecommendation
        [{ check_id := "FMT-003", name := "Right Margin", rule := "32(a)(4)",
           passed := false, severity := Severity.correction, message := "m" }]
        true fun _ => (Recommendation.accept, "adv")).1
      = recMax (hardRulePass
          [{ check_id := "FMT-003", name := "Right Margin", rule := "32(a)(4)",
             passed := false, severity := Severity.correction, message := "m" }])
          Recommendation.accept
    ∧ (computeRecommendation
        [{ check_id := "FMT-003", name := "Right Margin", rule := "32(a)(4)",
           passed := false, severity := Severity.correction, message := "m" }]
        true fun _ => (Recommendation.accept, "adv")).2 = "adv" ++ downgradeNote :=
  ⟨(computeRecommendation_escalation _ _ _).2.1 (by decide),
   (computeRecommendation_escalation _ _ _).2.2 (by decide) (by decide)⟩

/-- Claim C9: whenever the hard-rule pass yields REJECT, the advisory
pass is not invoked (`claudePassInvoked` is false) and
`compute_recommendation` returns REJECT with a result that is
independent of the advisory oracle. -/
theorem computeRecommendation_skipsAdvisory (results : List CheckResult) (u : Bool)
    (o1 o2 : List CheckResult → Recommendation × String)
    (h : hardRulePass results = Recommendation.reject) :
    claudePassInvoked results u = false
    ∧ (computeRecommendation results u o1).1 = Recommendation.reject
    ∧ computeRecommendation results u o1 = computeRecommendation results u o2 := by
  refine ⟨?_, ?_, ?_⟩
  · unfold claudePassInvoked
    simp [h]
  · rw [computeRecommendation_ofReject h]
  · rw [computeRecommendation_ofReject h u o1, computeRecommendation_ofReject h u o2]

/-- Witness for C9: with a single failed REJECT-severity check, the pass
is skipped, the result is REJECT, and two different advisory oracles
produce identical outputs. -/
theorem computeRecommendation_skipsAdvisory_witness :
    claudePassInvoked
        [{ check_id := "FMT-001", name := "Paper Size", rule := "32(a)(4)",
           passed := false, severity := Severity.reject, message := "m" }] true = false
    ∧ (computeRecommendation
        [{ check_id := "FMT-001", name := "Paper Size", rule := "32(a)(4)",
           passed := false, severity := Severity.reject, message := "m" }]
        true fun _ => (Recommendation.accept, "a")).1 = Recommendation.reject
    ∧ computeRecommendation
        [{ check_id := "FMT-001", name := "Paper Size", rule := "32(a)(4)",
           passed := false, severity := Severity.reject, message := "m" }]
        true (fun _ => (Recommendation.accept, "a"))
      = computeRecommendation
        [{ check_id := "FMT-001", name := "Paper Size", rule := "32(a)(4)",
           passed := false, severity := Severity.reject, message := "m" }]
        true (fun _ => (Recommendation.correction_letter, "b")) :=
  computeRecommendation_skipsAdvisory _ true _ _ (by decide)

theorem hardRulePass_append_passed {results : List CheckResult} {r : CheckResult}
    (h : r.failed = false) : hardRulePass (results ++ [r]) = hardRulePass results := by
  unfold hardRulePass
  simp [List.any_append, h]

theorem filter_append_not_holding {results : List CheckResult} {r : CheckResult}
    {p : CheckResult → Bool} (h : p r = false) :
    (results ++ [r]).filter p = results.filter p := by
  rw [List.filter_append]
  simp [List.filter, h]

theorem computeRecommendation_append_passed {results : List CheckResult} {r : CheckResult}
    (h : r.failed = false) (u : Bool) (o : List CheckResult → Recommendation × String) :
    computeRecommendation (results ++ [r]) u o = computeRecommendation results u o := by
  have e1 : (results ++ [r]).filter (·.failed) = results.filter (·.failed) :=
    filter_append_not_holding (by simpa using h)
  have e2 : (results ++ [r]).filter (fun x => x.failed && decide (x.severity = Severity.reject))
      = results.filter (fun x => x.failed && decide (x.severity = Severity.reject)) :=
    filter_append_not_holding (by simp [h])
  unfold computeRecommendation claudeWeightingPass autoRejectReasoning
  rw [hardRulePass_append_passed h, e1, e2]

/-- Claim C10: for every metadata, the COV-001 cover-color check passes
(it can never produce a failed finding), it is inapplicable exactly for
the UNKNOWN brief type, and appending it to any result list leaves the
recommendation (and reasoning) of `compute_recommendation` unchanged. -/
theorem checkCoverColor_harmless (md : BriefMetadata) (results : List CheckResult)
    (u : Bool) (o : List CheckResult → Recommendation × String) :
    (checkCoverColor md).passed = true
    ∧ (checkCoverColor md).failed = false
    ∧ ((checkCoverColor md).applicable = false ↔ md.brief_type = BriefType.unknown)
    ∧ computeRecommendation (results ++ [checkCoverColor md]) u o
        = computeRecommendation results u o := by
  have hp : (checkCoverColor md).passed = true := by
    unfold checkCoverColor
    cases h : COVER_COLORS md.brief_type <;> rfl
  have hf : (checkCoverColor md).failed = false := by
    rw [CheckResult.failed, hp]
    rfl
  refine ⟨hp, hf, ?_, computeRecommendation_append_passed hf u o⟩
  unfold checkCoverColor
  cases md.brief_type <;> simp [COVER_COLORS]

/-- Claim C8: every font span whose resolved vertical origin lies within
the top 10% or bottom 10% of the page height classifies as
header_footer, regardless of every other attribute (in particular the
superscript flag). -/
theorem classifySpan_headerFooterZone (f : FontSpan) (h : ℚ) (pred : Option ℚ)
    (hy : f.origin_y.getD (h / 2) ≤ h * (10 / 100)
        ∨ f.origin_y.getD (h / 2) ≥ h * (90 / 100)) :
    classifySpan f h pred = SpanCategory.header_footer := by
  unfold classifySpan
  have hc : (decide (f.origin_y.getD (h / 2) ≤ h * (10 / 100))
      || decide (f.origin_y.getD (h / 2) ≥ h * (90 / 100))) = true := by
    rcases hy with h1 | h1 <;> simp [h1]
  simp only []
  rw [if_pos hc]

/-- Witness for C8: a span in the bottom zone (origin 700 of a 720pt
page) with the superscript flag bit set still classifies as
header_footer. -/
theorem classifySpan_headerFooterZone_witness :
    classifySpan
      { size := 8, flags := some 1, chars := some 2, text := some "1", origin_y := some 700 }
      720 none = SpanCategory.header_footer :=
  classifySpan_headerFooterZone _ _ _ (Or.inr (by norm_num [Option.getD]))

/-- Claim C4: for every font span with non-empty all-uppercase text,
positioned strictly outside the header/footer zones, with a clear
superscript flag bit and more than 4 characters, and every positive
predominant size, `_classify_font_span` returns small_caps exactly when
the size ratio lies in the inclusive band
[SMALL_CAPS_SIZE_RATIO_MIN, SMALL_CAPS_SIZE_RATIO_MAX] = [0.55, 0.85],
and body otherwise. -/
theorem classifySpan_smallCapsBand (f : FontSpan) (h p : ℚ) (s : String)
    (htext : f.text = some s) (hne : s.data ≠ [])
    (hupper : isAllUppercase s.data = true)
    (hz1 : h * (10 / 100) < f.origin_y.getD (h / 2))
    (hz2 : f.origin_y.getD (h / 2) < h * (90 / 100))
    (hflag : f.flags.getD 0 % 2 = 0)
    (hchars : 4 < f.chars.getD 0)
    (hp : 0 < p) :
    classifySpan f h (some p) =
      if SMALL_CAPS_SIZE_RATIO_MIN ≤ f.size / p ∧ f.size / p ≤ SMALL_CAPS_SIZE_RATIO_MAX
      then SpanCategory.small_caps else SpanCategory.body := by
  unfold classifySpan
  simp only []
  rw [if_neg (by
    simp only [Bool.or_eq_true, decide_eq_true_eq, not_or]
    exact ⟨not_le.mpr hz1, not_le.mpr hz2⟩)]
  rw [if_neg (by simp [hflag])]
  rw [if_neg (by simp [Nat.not_le.mpr hchars])]
  rw [if_pos hp, htext]
  have ht : (!(s.data.isEmpty) && isAllUppercase s.data) = true := by
    simp [hupper, List.isEmpty_iff, hne]
  simp only [Option.getD_some]
  rw [if_pos ht]
  by_cases hband : SMALL_CAPS_SIZE_RATIO_MIN ≤ f.size / p ∧ f.size / p ≤ SMALL_CAPS_SIZE_RATIO_MAX
  · rw [if_pos (by simp [hband.1, hband.2]), if_pos hband]
  · rw [if_neg (by
      simp only [Bool.and_eq_true, decide_eq_true_eq]
      exact fun hc => hband hc), if_neg hband]

/-- Fixture span for the small-caps band witness: all-uppercase text, 10
chars, mid-page position, no flags. -/
def smallCapsProbe (sz : ℚ) : FontSpan :=
  { size := sz, flags := some 0, chars := some 10, text := some "ABC", origin_y := some 400 }

/-- Witness for C4 at the band boundaries: against a predominant size of
20, spans of size 11 (ratio exactly 0.55) and 17 (ratio exactly 0.85)
classify as small_caps, while 10.8 (ratio 0.54) and 17.2 (ratio 0.86)
classify as body. -/
theorem classifySpan_smallCapsBand_witness :
    classifySpan (smallCapsProbe 11) 792 (some 20) = SpanCategory.small_caps
    ∧ classifySpan (smallCapsProbe 17) 792 (some 20) = SpanCategory.small_caps
    ∧ classifySpan (smallCapsProbe (54 / 5)) 792 (some 20) = SpanCategory.body
    ∧ classifySpan (smallCapsProbe (86 / 5)) 792 (some 20) = SpanCategory.body := by
  refine ⟨?_, ?_, ?_, ?_⟩ <;>
  · rw [classifySpan_smallCapsBand _ _ _ "ABC" rfl (by decide) (by decide)
      (by norm_num [smallCapsProbe, Option.getD]) (by norm_num [smallCapsProbe, Option.getD])
      (by decide) (by decide) (by norm_num)]
    norm_num [smallCapsProbe, SMALL_CAPS_SIZE_RATIO_MIN, SMALL_CAPS_SIZE_RATIO_MAX]

/-- Claim C5: whenever the global body-violation character count of the
FMT-006 check is nonzero, the check fails and its severity is REJECT if
and only if some page's body-violation count (after small-caps
reweighting) is at least FONT_NONCOMPLIANT_THRESHOLD, and NOTE
otherwise. -/
theorem fontSizeCheck_severity (md : BriefMetadata)
    (h : ((fontPageIssues md).map PageIssue.nc_body).sum ≠ 0) :
    (fontSizeCheck md).passed = false
    ∧ (fontSizeCheck md).severity =
        (if (fontPageIssues md).any (fun pi => decide (pi.nc_body ≥ FONT_NONCOMPLIANT_THRESHOLD))
         then Severity.reject else Severity.note) := by
  unfold fontSizeCheck
  have hne : (fontPageIssues md).isEmpty = false := by
    cases he : fontPageIssues md
    · rw [he] at h
      simp at h
    · rfl
  rw [if_neg (by simp [hne])]
  rw [if_neg (by simpa using h)]
  constructor
  · rfl
  · by_cases ha : (fontPageIssues md).any
        (fun pi => decide (pi.nc_body ≥ FONT_NONCOMPLIANT_THRESHOLD)) = true
    · simp [ha]
    · simp [ha]

/-- Fixture page for the font-size threshold witness: a single
mid-page, unflagged, text-free span of the given size and char count on
a non-cover page. -/
def fontProbePage (sz : ℚ) (cc : Nat) : PageInfo :=
  { page_number := 3, width_inches := 17 / 2, height_inches := 11,
    left_margin_inches := 3 / 2, right_margin_inches := 1, top_margin_inches := 1,
    bottom_margin_inches := 1,
    fonts := [{ size := sz, flags := some 0, chars := some cc, origin_y := some 400 }] }

/-- Fixture metadata for the font-size threshold witness. -/
def fontProbeMd (sz : ℚ) (cc : Nat) : BriefMetadata :=
  { predominant_font_size := some 12, pages := [fontProbePage sz cc] }

/-- Witness for C5 at the threshold boundary: a page with exactly
FONT_NONCOMPLIANT_THRESHOLD = 10 body-violation characters yields
REJECT; with one fewer (9) the failed check is NOTE. -/
theorem fontSizeCheck_severity_witness :
    (fontSizeCheck (fontProbeMd 10 10)).severity = Severity.reject
    ∧ (fontSizeCheck (fontProbeMd 10 9)).severity = Severity.note
    ∧ (fontSizeCheck (fontProbeMd 10 9)).passed = false := by
  have e10 : fontPageIssues (fontProbeMd 10 10) =
      [{ page := 4, total_chars := 10, nc_total := 10, nc_body := 10, nc_hf := 0,
         nc_super := 0, nc_small_caps := 0, min_size := some 10 }] := by
    norm_num [fontPageIssues, pageIssueOf, fontProbeMd, fontProbePage, spanStep, classifySpan,
      isConventionalSmallCapsPage, respectfullySearch, certificateSearch, tableSearch,
      isAllUppercase, MIN_FONT_SIZE_PT, FONT_SIZE_TOLERANCE,
      SMALL_CAPS_SIZE_RATIO_MIN, SMALL_CAPS_SIZE_RATIO_MAX, SMALL_CAPS_SUSPICIOUS_PAGE_PCT,
      searchM, litM, wsPlusM, lowerChars, matchEnd, List.filterMap, List.foldl]
  have e9 : fontPageIssues (fontProbeMd 10 9) =
      [{ page := 4, total_chars := 9, nc_total := 9, nc_body := 9, nc_hf := 0,
         nc_super := 0, nc_small_caps := 0, min_size := some 10 }] := by
    norm_num [fontPageIssues, pageIssueOf, fontProbeMd, fontProbePage, spanStep, classifySpan,
      isConventionalSmallCapsPage, respectfullySearch, certificateSearch, tableSearch,
      isAllUppercase, MIN_FONT_SIZE_PT, FONT_SIZE_TOLERANCE,
      SMALL_CAPS_SIZE_RATIO_MIN, SMALL_CAPS_SIZE_RATIO_MAX, SMALL_CAPS_SUSPICIOUS_PAGE_PCT,
      searchM, litM, wsPlusM, lowerChars, matchEnd, List.filterMap, List.foldl]
  obtain ⟨p10, s10⟩ := fontSizeCheck_severity (fontProbeMd 10 10) (by rw [e10]; decide)
  obtain ⟨p9, s9⟩ := fontSizeCheck_severity (fontProbeMd 10 9) (by rw [e9]; decide)
  refine ⟨?_, ?_, p9⟩
  · rw [s10, e10]
    decide
  · rw [s9, e9]
    decide


/-!
## Theorems about the text normalizer and the brief-type classifier
-/

/-!
## Identity of the character-level normalization stages on plain ASCII
-/

/-- Plain characters: ASCII, not one of the quote-like characters the
normalizer removes, and not the NUL sentinel (which the collapse stage
would turn into a space). -/
def plainChar (c : Char) : Bool :=
  c.toNat < 128 && !isQuoteLike1 c && !isQuoteLike2 c && !(c == sentinelChar)

theorem nfkdChar_ascii {c : Char} (h : c.toNat < 128) : nfkdChar c = [c] := by
  unfold nfkdChar
  rw [if_neg fun hEq => by subst hEq; exact absurd h (by decide),
    if_neg fun hEq => by subst hEq; exact absurd h (by decide),
    if_neg fun hEq => by subst hEq; exact absurd h (by decide),
    if_neg fun hEq => by subst hEq; exact absurd h (by decide)]

theorem nfkd_ascii {cs : List Char} (h : ∀ c ∈ cs, c.toNat < 128) : nfkd cs = cs := by
  induction cs with
  | nil => rfl
  | cons c t ih =>
    unfold nfkd
    rw [List.map_cons, List.flatten_cons, nfkdChar_ascii (h c (by simp))]
    have := ih fun d hd => h d (by simp [hd])
    unfold nfkd at this
    rw [this]
    rfl

theorem stripCombining_ascii {cs : List Char} (h : ∀ c ∈ cs, c.toNat < 128) :
    stripCombining cs = cs := by
  unfold stripCombining
  rw [List.filter_eq_self]
  intro c hc
  have hlt := h c hc
  simp only [isCombining, Bool.not_eq_eq_eq_not, Bool.not_true, decide_eq_false_iff_not]
  intro hEq
  subst hEq
  exact absurd hlt (by decide)

theorem removeZeroWidth_ascii {cs : List Char} (h : ∀ c ∈ cs, c.toNat < 128) :
    removeZeroWidth cs = cs := by
  unfold removeZeroWidth
  rw [List.filter_eq_self]
  intro c hc
  have hlt := h c hc
  have h1 : c ≠ '\u200B' := fun hEq => by subst hEq; exact absurd hlt (by decide)
  have h2 : c ≠ '\u200C' := fun hEq => by subst hEq; exact absurd hlt (by decide)
  have h3 : c ≠ '\u200D' := fun hEq => by subst hEq; exact absurd hlt (by decide)
  have h4 : c ≠ '\uFEFF' := fun hEq => by subst hEq; exact absurd hlt (by decide)
  have h5 : c ≠ '\u00AD' := fun hEq => by subst hEq; exact absurd hlt (by decide)
  simp [isZeroWidth, h1, h2, h3, h4, h5]

theorem removeQuotes1_plain {cs : List Char} (h : ∀ c ∈ cs, plainChar c = true) :
    removeQuotes1 cs = cs := by
  unfold removeQuotes1
  rw [List.filter_eq_self]
  intro c hc
  have hp := h c hc
  simp only [plainChar, Bool.and_eq_true, Bool.not_eq_eq_eq_not, Bool.not_true] at hp
  simp [hp.1.1.2]

theorem removeQuotes2_plain {cs : List Char} (h : ∀ c ∈ cs, plainChar c = true) :
    removeQuotes2 cs = cs := by
  unfold removeQuotes2
  rw [List.filter_eq_self]
  intro c hc
  have hp := h c hc
  simp only [plainChar, Bool.and_eq_true, Bool.not_eq_eq_eq_not, Bool.not_true] at hp
  simp [hp.1.2]

theorem map_id_on {f : Char → Char} : ∀ {cs : List Char}, (∀ c ∈ cs, f c = c) →
    cs.map f = cs
  | [], _ => rfl
  | c :: t, h => by
    rw [List.map_cons, h c (by simp), map_id_on fun d hd => h d (by simp [hd])]

theorem dashSub_ascii {cs : List Char} (h : ∀ c ∈ cs, c.toNat < 128) :
    dashSub cs = cs := by
  unfold dashSub
  apply map_id_on
  intro c hc
  have hlt := h c hc
  have hd : isDashLike c = false := by
    have n1 : c ≠ '‐' := fun hEq => by subst hEq; exact absurd hlt (by decide)
    have n2 : c ≠ '‑' := fun hEq => by subst hEq; exact absurd hlt (by decide)
    have n3 : c ≠ '‒' := fun hEq => by subst hEq; exact absurd hlt (by decide)
    have n4 : c ≠ '–' := fun hEq => by subst hEq; exact absurd hlt (by decide)
    have n5 : c ≠ '—' := fun hEq => by subst hEq; exact absurd hlt (by decide)
    have n6 : c ≠ '―' := fun hEq => by subst hEq; exact absurd hlt (by decide)
    have n7 : c ≠ '−' := fun hEq => by subst hEq; exact absurd hlt (by decide)
    have n8 : c ≠ '﹘' := fun hEq => by subst hEq; exact absurd hlt (by decide)
    have n9 : c ≠ '﹣' := fun hEq => by subst hEq; exact absurd hlt (by decide)
    have n10 : c ≠ '－' := fun hEq => by subst hEq; exact absurd hlt (by decide)
    simp [isDashLike, n1, n2, n3, n4, n5, n6, n7, n8, n9, n10]
  simp [hd]

/-!
## Whitespace-run equivalence: the sentinel substitution composed with
sentinel restoration preserves the result of whitespace collapsing
-/

/-- Two texts are whitespace-run equivalent when they consist of the
same non-whitespace characters in the same order, with corresponding
(nonempty) whitespace runs in the same places. -/
inductive WsEquiv : List Char → List Char → Prop
  | nil : WsEquiv [] []
  | chr {s t : List Char} (c : Char) (hc : isPyWs c = false) (h : WsEquiv s t) :
      WsEquiv (c :: s) (c :: t)
  | ws {s t : List Char} (u v : List Char) (hu : u ≠ []) (hv : v ≠ [])
      (hu2 : ∀ c ∈ u, isPyWs c = true) (hv2 : ∀ c ∈ v, isPyWs c = true)
      (h : WsEquiv s t) : WsEquiv (u ++ s) (v ++ t)

theorem wsCore_true_ws_append {u : List Char} (hu : ∀ c ∈ u, isPyWs c = true)
    (s : List Char) : wsCore true (u ++ s) = wsCore true s := by
  induction u with
  | nil => rfl
  | cons c t ih =>
    rw [List.cons_append]
    show wsCore true (c :: (t ++ s)) = wsCore true s
    rw [wsCore, if_pos (hu c (by simp)), if_pos rfl]
    exact ih fun d hd => hu d (by simp [hd])

theorem wsCore_of_wsEquiv : ∀ n {a b : List Char}, a.length ≤ n → WsEquiv a b →
    wsCore false a = wsCore false b ∧ wsCore true a = wsCore true b := by
  intro n
  induction n with
  | zero =>
    intro a b hl h
    cases h with
    | nil => exact ⟨rfl, rfl⟩
    | chr c hc h2 => simp at hl
    | ws u v hu hv hu2 hv2 h2 =>
      exfalso
      cases u with
      | nil => exact hu rfl
      | cons x xs => simp at hl
  | succ n ih =>
    intro a b hl h
    cases h with
    | nil => exact ⟨rfl, rfl⟩
    | chr c hc h2 =>
      rename_i s t
      have hrec := ih (by simp at hl; omega) h2
      constructor
      · show wsCore false (c :: s) = wsCore false (c :: t)
        rw [wsCore, wsCore, if_neg (by simp [hc]), if_neg (by simp [hc]), hrec.1]
      · show wsCore true (c :: s) = wsCore true (c :: t)
        rw [wsCore, wsCore, if_neg (by simp [hc]), if_neg (by simp [hc]), hrec.1]
    | ws u v hu hv hu2 hv2 h2 =>
      rename_i s t
      have hlen : s.length ≤ n := by
        cases u with
        | nil => exact absurd rfl hu
        | cons x xs => simp at hl; omega
      have hrec := ih hlen h2
      have htrue : wsCore true (u ++ s) = wsCore true (v ++ t) := by
        rw [wsCore_true_ws_append hu2, wsCore_true_ws_append hv2, hrec.2]
      constructor
      · cases u with
        | nil => exact absurd rfl hu
        | cons x xs =>
          cases v with
          | nil => exact absurd rfl hv
          | cons y ys =>
            rw [List.cons_append, List.cons_append]
            show wsCore false (x :: (xs ++ s)) = wsCore false (y :: (ys ++ t))
            rw [wsCore, wsCore, if_pos (hu2 x (by simp)), if_pos (hv2 y (by simp)),
              if_neg (by simp), if_neg (by simp)]
            have h1 : wsCore true (xs ++ s) = wsCore true s :=
              wsCore_true_ws_append (fun d hd => hu2 d (by simp [hd])) s
            have h2' : wsCore true (ys ++ t) = wsCore true t :=
              wsCore_true_ws_append (fun d hd => hv2 d (by simp [hd])) t
            rw [h1, h2', hrec.2]
      · exact htrue

theorem dropWhile_head_not {p : Char → Bool} : ∀ {l : List Char} {c : Char},
    (l.dropWhile p).head? = some c → p c = false
  | [], c => by simp [List.dropWhile]
  | x :: t, c => by
    rw [List.dropWhile]
    by_cases hx : p x = true
    · simp only [hx]
      exact dropWhile_head_not
    · have hx2 : p x = false := by simpa using hx
      simp only [hx2]
      intro h
      simp at h
      rw [h] at hx2
      exact hx2

/-- One step of `sentAux` on a cons cell, as an unconditional equation. -/
theorem sentAux_cons (f : Nat) (b : Bool) (c : Char) (t : List Char) :
    sentAux (f + 1) b (c :: t) =
      if c = ' ' then
        (if b then sentAux f true t
         else match t with
           | d :: t2 =>
             if d = ' ' then sentinelChar :: sentAux f true t2
             else ' ' :: sentAux f false (d :: t2)
           | [] => [' '])
      else if c = '\t' || c = '\n' then sentinelChar :: sentAux f false t
      else c :: sentAux f false t := rfl

theorem sentAux_true_skip : ∀ (m fuel : Nat) (rest : List Char),
    rest.head? ≠ some ' ' → m ≤ fuel →
    sentAux fuel true (List.replicate m ' ' ++ rest) = sentAux (fuel - m) true rest := by
  intro m
  induction m with
  | zero => intro fuel rest _ _; rfl
  | succ k ih =>
    intro fuel rest hr hm
    cases fuel with
    | zero => omega
    | succ f =>
      rw [List.replicate_succ, List.cons_append, sentAux_cons, if_pos rfl, if_pos rfl,
        ih f rest hr (by omega)]
      congr 1
      omega

theorem sentAux_true_eq_false : ∀ (fuel : Nat) (rest : List Char),
    rest.head? ≠ some ' ' → sentAux fuel true rest = sentAux fuel false rest := by
  intro fuel rest hr
  cases fuel with
  | zero => cases rest <;> rfl
  | succ f =>
    cases rest with
    | nil => rfl
    | cons c t =>
      have hc : ¬(c = ' ') := fun hEq => hr (by rw [hEq]; rfl)
      rw [sentAux_cons, sentAux_cons, if_neg hc, if_neg hc]

theorem charOfNat_toNat {n : Nat} (hv : n.isValidChar) : (Char.ofNat n).toNat = n := by
  rw [Char.ofNat, dif_pos hv]
  rfl

theorem toLower_ne_sentinel {c : Char} (h : c ≠ sentinelChar) :
    Char.toLower c ≠ sentinelChar := by
  unfold Char.toLower
  by_cases hr : c.toNat ≥ 65 ∧ c.toNat ≤ 90
  · rw [if_pos hr]
    intro hEq
    have h2 := congrArg Char.toNat hEq
    rw [charOfNat_toNat (Or.inl (by omega))] at h2
    rw [show sentinelChar.toNat = 0 from rfl] at h2
    omega
  · rw [if_neg hr]
    exact h

/-- Construction of the whitespace-run equivalence between the
sentinel-substituted-and-restored text and the original: the sentinel
substitution rewrites whitespace chunks (space runs, tabs, newlines) to
a sentinel that restoration turns back into a single space, and leaves
every other character alone (provided the text contains no literal
sentinel). -/
theorem wsEquiv_desentinel_sentAux : ∀ (n : Nat) (s : List Char) (fuel : Nat),
    s.length ≤ n → s.length ≤ fuel → (∀ c ∈ s, c ≠ sentinelChar) →
    WsEquiv (desentinel (sentAux fuel false s)) s := by
  intro n
  induction n with
  | zero =>
    intro s fuel hn _ _
    have hs : s = [] := List.length_eq_zero.mp (by omega)
    subst hs
    cases fuel <;> exact WsEquiv.nil
  | succ n ih =>
    intro s fuel hn hf hnul
    cases s with
    | nil => cases fuel <;> exact WsEquiv.nil
    | cons c t =>
      cases fuel with
      | zero => simp at hf
      | succ f =>
        by_cases hsp : c = ' '
        · subst hsp
          cases t with
          | nil =>
            show WsEquiv (desentinel (sentAux (f + 1) false [' '])) [' ']
            rw [show sentAux (f + 1) false [' '] = [' '] from rfl]
            rw [show desentinel [' '] = [' '] from rfl]
            exact WsEquiv.ws [' '] [' '] (by simp) (by simp)
              (by intro x hx; simp at hx; subst hx; rfl)
              (by intro x hx; simp at hx; subst hx; rfl) WsEquiv.nil
          | cons d t2 =>
            by_cases hd : d = ' '
            · subst hd
              have step : sentAux (f + 1) false (' ' :: ' ' :: t2)
                  = sentinelChar :: sentAux f true t2 := rfl
              set m := (t2.takeWhile (fun x => x == ' ')).length with hm
              set rest := t2.dropWhile (fun x => x == ' ') with hrest
              have hsplit : t2.takeWhile (fun x => x == ' ') ++ rest = t2 :=
                List.takeWhile_append_dropWhile (fun x => x == ' ') t2
              have hrep : t2.takeWhile (fun x => x == ' ') = List.replicate m ' ' := by
                apply List.eq_replicate_of_mem
                intro b hb
                have := List.mem_takeWhile_imp hb
                simpa using this
              have hrh : rest.head? ≠ some ' ' := by
                intro hcontra
                have := dropWhile_head_not hcontra
                simp at this
              have hmle : m ≤ t2.length := by
                rw [hm]
                exact (List.takeWhile_sublist (fun x => x == ' ')).length_le
              have hlen2 : t2.length + 2 ≤ f + 1 := by simpa using hf
              have hskip : sentAux f true t2 = sentAux (f - m) false rest := by
                conv =>
                  lhs
                  rw [← hsplit, hrep]
                rw [sentAux_true_skip m f rest hrh (by omega)]
                exact sentAux_true_eq_false _ _ hrh
              rw [step, hskip]
              have hgoal : WsEquiv
                  ([' '] ++ desentinel (sentAux (f - m) false rest))
                  ((' ' :: ' ' :: List.replicate m ' ') ++ rest) := by
                apply WsEquiv.ws
                · simp
                · simp
                · intro x hx; simp at hx; subst hx; rfl
                · intro x hx
                  have hx2 : x = ' ' := by
                    simp at hx
                    tauto
                  subst hx2
                  rfl
                · apply ih rest (f - m)
                  · have : rest.length ≤ t2.length := by
                      rw [hrest]
                      exact (List.dropWhile_sublist (fun x => x == ' ')).length_le
                    simp at hn
                    omega
                  · have : m + rest.length = t2.length := by
                      rw [hm, hrest, ← List.length_append,
                        List.takeWhile_append_dropWhile (fun x => x == ' ') t2]
                    omega
                  · intro x hx
                    exact hnul x (by
                      have : x ∈ t2 := (List.dropWhile_sublist (fun x => x == ' ')).subset hx
                      simp [this])
              have hshape : (' ' :: ' ' :: List.replicate m ' ') ++ rest
                  = ' ' :: ' ' :: t2 := by
                rw [List.cons_append, List.cons_append, hrep.symm, hsplit]
              rw [hshape] at hgoal
              exact hgoal
            · have step : sentAux (f + 1) false (' ' :: d :: t2)
                  = ' ' :: sentAux f false (d :: t2) := by
                rw [sentAux_cons, if_pos rfl]
                show (match d :: t2 with
                  | e :: t3 =>
                    if e = ' ' then sentinelChar :: sentAux f true t3
                    else ' ' :: sentAux f false (e :: t3)
                  | [] => [' ']) = _
                rw [show (match d :: t2 with
                  | e :: t3 =>
                    if e = ' ' then sentinelChar :: sentAux f true t3
                    else ' ' :: sentAux f false (e :: t3)
                  | [] => [' ']) =
                    (if d = ' ' then sentinelChar :: sentAux f true t2
                     else ' ' :: sentAux f false (d :: t2)) from rfl, if_neg hd]
              rw [step]
              show WsEquiv ([' '] ++ desentinel (sentAux f false (d :: t2)))
                ([' '] ++ (d :: t2))
              apply WsEquiv.ws [' '] [' '] (by simp) (by simp)
                (by intro x hx; simp at hx; subst hx; rfl)
                (by intro x hx; simp at hx; subst hx; rfl)
              apply ih (d :: t2) f (by simp at hn ⊢; omega) (by simp at hf ⊢; omega)
              intro x hx
              exact hnul x (by simp at hx ⊢; tauto)
        · by_cases htn : c = '\t' ∨ c = '\n'
          · have step : sentAux (f + 1) false (c :: t)
                = sentinelChar :: sentAux f false t := by
              rw [sentAux_cons, if_neg hsp, if_pos (by rcases htn with h | h <;> simp [h])]
            rw [step]
            show WsEquiv ([' '] ++ desentinel (sentAux f false t)) ([c] ++ t)
            apply WsEquiv.ws [' '] [c] (by simp) (by simp)
              (by intro x hx; simp at hx; subst hx; rfl)
              (by intro x hx; simp at hx; subst hx
                  rcases htn with h | h <;> simp [isPyWs, h])
            apply ih t f (by simp at hn ⊢; omega) (by simp at hf ⊢; omega)
            intro x hx
            exact hnul x (by simp [hx])
          · have step : sentAux (f + 1) false (c :: t) = c :: sentAux f false t := by
              rw [sentAux_cons, if_neg hsp, if_neg (by
                intro hcontra
                simp at hcontra
                exact htn hcontra)]
            have hcnul : c ≠ sentinelChar := hnul c (by simp)
            have hdes : desentinel (c :: sentAux f false t)
                = c :: desentinel (sentAux f false t) := by
              unfold desentinel
              rw [List.map_cons, if_neg hcnul]
            rw [step, hdes]
            have hrec : WsEquiv (desentinel (sentAux f false t)) t := by
              apply ih t f (by simp at hn ⊢; omega) (by simp at hf ⊢; omega)
              intro x hx
              exact hnul x (by simp [hx])
            by_cases hws : isPyWs c = true
            · exact WsEquiv.ws [c] [c] (by simp) (by simp)
                (by intro x hx; simp at hx; subst hx; exact hws)
                (by intro x hx; simp at hx; subst hx; exact hws) hrec
            · exact WsEquiv.chr c (by simpa using hws) hrec

theorem plainChar_ascii {c : Char} (h : plainChar c = true) : c.toNat < 128 := by
  simp only [plainChar, Bool.and_eq_true, decide_eq_true_eq] at h
  exact h.1.1.1

theorem plainChar_nq1 {c : Char} (h : plainChar c = true) : isQuoteLike1 c = false := by
  simp only [plainChar, Bool.and_eq_true, Bool.not_eq_eq_eq_not, Bool.not_true] at h
  exact h.1.1.2

theorem plainChar_nq2 {c : Char} (h : plainChar c = true) : isQuoteLike2 c = false := by
  simp only [plainChar, Bool.and_eq_true, Bool.not_eq_eq_eq_not, Bool.not_true] at h
  exact h.1.2

theorem plainChar_ne_sentinel {c : Char} (h : plainChar c = true) : c ≠ sentinelChar := by
  simp only [plainChar, Bool.and_eq_true, Bool.not_eq_eq_eq_not, Bool.not_true] at h
  intro hcontra
  have h4 := h.2
  rw [hcontra] at h4
  simp at h4

theorem wsCollapse_desentinel_sentinelize (s : List Char)
    (hnul : ∀ c ∈ s, c ≠ sentinelChar) :
    wsCollapse (desentinel (sentinelize s)) = wsCollapse s := by
  have hEquiv : WsEquiv (desentinel (sentinelize s)) s := by
    unfold sentinelize
    exact wsEquiv_desentinel_sentAux s.length s s.length (le_refl _) (le_refl _) hnul
  unfold wsCollapse
  rw [(wsCore_of_wsEquiv (desentinel (sentinelize s)).length (le_refl _) hEquiv).1]

/-- Claim C6 (amended): for every text consisting only of plain
characters (ASCII, no quote-like characters, no NUL sentinel) on which
the ligature-repair substitutions act as the identity and whose
lowercased, stripped form contains no letter-spacing run (the collapse
acts as the identity), `_normalize` equals lowercasing, stripping and
collapsing internal whitespace runs to single spaces. -/
theorem normalizeChars_plain (cs : List Char)
    (hplain : ∀ c ∈ cs, plainChar c = true)
    (hlig1 : brifiSub cs = cs)
    (hlig2 : briefSub cs = cs)
    (hruns : joinRuns (sentinelize (pyStrip (lowerChars cs)))
      = sentinelize (pyStrip (lowerChars cs))) :
    normalizeChars cs = wsCollapse (pyStrip (lowerChars cs)) := by
  have hascii : ∀ c ∈ cs, c.toNat < 128 := fun c hc => plainChar_ascii (hplain c hc)
  show wsCollapse (collapseLetterSpacing (pyStrip (lowerChars (dashSub (removeQuotes2 (removeQuotes1 (briefSub (brifiSub (removeZeroWidth (stripCombining (nfkd cs)))))))))))
      = wsCollapse (pyStrip (lowerChars cs))
  rw [nfkd_ascii hascii, stripCombining_ascii hascii, removeZeroWidth_ascii hascii,
    hlig1, hlig2, removeQuotes1_plain hplain, removeQuotes2_plain hplain,
    dashSub_ascii hascii]
  unfold collapseLetterSpacing
  rw [hruns]
  apply wsCollapse_desentinel_sentinelize
  intro c hc
  have hc2 : c ∈ lowerChars cs := by
    unfold pyStrip at hc
    rw [List.mem_reverse] at hc
    have h3 := (List.dropWhile_sublist isPyWs).subset hc
    rw [List.mem_reverse] at h3
    exact (List.dropWhile_sublist isPyWs).subset h3
  unfold lowerChars at hc2
  obtain ⟨c0, hc0, hEq⟩ := List.mem_map.mp hc2
  rw [← hEq]
  exact toLower_ne_sentinel (plainChar_ne_sentinel (hplain c0 hc0))

/-- Witness for C6 (amended) at a concrete input with mixed case and an
internal double space. -/
theorem normalizeChars_plain_witness :
    normalizeChars "Hello  World".data = wsCollapse (pyStrip (lowerChars "Hello  World".data))
    ∧ wsCollapse (pyStrip (lowerChars "Hello  World".data)) = "hello world".data :=
  ⟨normalizeChars_plain _ (by decide) (by decide) (by decide) (by decide), by decide⟩

/-- Counterexample for C6 as stated: the input "don't" contains no
ligature artifact (both ligature-repair substitutions leave it
unchanged) and no letter-spacing pattern (the collapse leaves its
lowercased, stripped form unchanged), yet `_normalize` removes the
apostrophe, so the result differs from the lowercased / stripped /
whitespace-collapsed input. -/
theorem normalizeChars_plain_counterexample :
    brifiSub "don't".data = "don't".data
    ∧ briefSub "don't".data = "don't".data
    ∧ joinRuns (sentinelize (pyStrip (lowerChars "don't".data)))
        = sentinelize (pyStrip (lowerChars "don't".data))
    ∧ wsCollapse (pyStrip (lowerChars "don't".data)) = "don't".data
    ∧ normalizeChars "don't".data = "dont".data
    ∧ normalizeChars "don't".data ≠ wsCollapse (pyStrip (lowerChars "don't".data)) := by
  decide

theorem asciiLetter_facts {c : Char} (h : isAsciiLetter c = true) :
    c ≠ ' ' ∧ c ≠ '\t' ∧ c ≠ '\n' ∧ c ≠ sentinelChar ∧ isPyWs c = false := by
  simp only [isAsciiLetter, Bool.or_eq_true, Bool.and_eq_true, decide_eq_true_eq] at h
  have n1 : c ≠ ' ' := fun hEq => by subst hEq; exact absurd h (by decide)
  have n2 : c ≠ '\t' := fun hEq => by subst hEq; exact absurd h (by decide)
  have n3 : c ≠ '\n' := fun hEq => by subst hEq; exact absurd h (by decide)
  have n4 : c ≠ sentinelChar := fun hEq => by subst hEq; exact absurd h (by decide)
  have n5 : c ≠ '\u000D' := fun hEq => by subst hEq; exact absurd h (by decide)
  have n6 : c ≠ '\u000B' := fun hEq => by subst hEq; exact absurd h (by decide)
  have n7 : c ≠ '\u000C' := fun hEq => by subst hEq; exact absurd h (by decide)
  exact ⟨n1, n2, n3, n4, by simp [isPyWs, n1, n2, n3, n5, n6, n7]⟩

theorem sentinelize_letter_gap {c d : Char} (hc : isAsciiLetter c = true)
    (hd : isAsciiLetter d = true) (k : Nat) (hk : 2 ≤ k) :
    sentinelize (c :: (List.replicate k ' ' ++ [d])) = [c, sentinelChar, d] := by
  obtain ⟨hc1, hc2, hc3, _, _⟩ := asciiLetter_facts hc
  obtain ⟨hd1, hd2, hd3, _, _⟩ := asciiLetter_facts hd
  unfold sentinelize
  rw [show (c :: (List.replicate k ' ' ++ [d])).length = k + 1 + 1 from by simp]
  rw [sentAux_cons, if_neg hc1, if_neg (by simp [hc2, hc3])]
  congr 1
  obtain ⟨m, rfl⟩ : ∃ m, k = m + 2 := ⟨k - 2, by omega⟩
  rw [show List.replicate (m + 2) ' ' ++ [d] = ' ' :: ' ' :: (List.replicate m ' ' ++ [d])
    from rfl]
  rw [show (m + 2 + 1 : Nat) = (m + 2) + 1 from rfl]
  rw [show sentAux ((m + 2) + 1) false (' ' :: ' ' :: (List.replicate m ' ' ++ [d]))
      = sentinelChar :: sentAux (m + 2) true (List.replicate m ' ' ++ [d]) from rfl]
  congr 1
  rw [sentAux_true_skip m (m + 2) [d]
    (by simp only [List.head?_cons, ne_eq, Option.some.injEq]; exact hd1) (by omega)]
  rw [show (m + 2 - m : Nat) = 1 + 1 from by omega]
  rw [sentAux_cons, if_neg hd1, if_neg (by simp [hd2, hd3])]
  rfl

theorem joinRuns_no_pairs {c d : Char} :
    joinRuns [c, sentinelChar, d] = [c, sentinelChar, d] := by
  have h1 : countPairs [c, sentinelChar, d] = 0 := by
    unfold countPairs
    rw [if_neg]
    simp [sentinelChar]
  have h2 : countPairs [sentinelChar, d] = 0 := by
    unfold countPairs
    rw [if_neg]
    simp [isAsciiLetter, sentinelChar]
  unfold joinRuns
  simp only [List.length_cons, List.length_nil]
  rw [show (0 + 1 + 1 + 1 : Nat) = 2 + 1 from rfl]
  rw [joinRunsAux, h1]
  norm_num
  rw [joinRunsAux, h2]
  norm_num
  rw [show (1 : Nat) = 0 + 1 from rfl, joinRunsAux]
  simp [countPairs]
  rfl

theorem desentinel_letter {c d : Char} (hc : c ≠ sentinelChar) (hd : d ≠ sentinelChar) :
    desentinel [c, sentinelChar, d] = [c, ' ', d] := by
  simp [desentinel, hc, hd]

/-- Claim C3 (amended): normalizing "a p p e l l a n t brief" yields the
single token "appellantbrief" — the letter-spacing collapse joins the
letter-spaced run and also absorbs the first letter of the adjacent
word across the single space; and for every pair of single letters
separated by two or more spaces, or by a tab or a newline, the collapse
does not join them — the gap is preserved as a word boundary (one
space). -/
theorem collapseLetterSpacing_boundaries :
    normalizeChars "a p p e l l a n t brief".data = "appellantbrief".data
    ∧ (∀ c d : Char, isAsciiLetter c = true → isAsciiLetter d = true →
        ∀ k : Nat, 2 ≤ k →
          collapseLetterSpacing (c :: (List.replicate k ' ' ++ [d])) = [c, ' ', d])
    ∧ (∀ c d : Char, isAsciiLetter c = true → isAsciiLetter d = true →
        collapseLetterSpacing [c, '\t', d] = [c, ' ', d])
    ∧ (∀ c d : Char, isAsciiLetter c = true → isAsciiLetter d = true →
        collapseLetterSpacing [c, '\n', d] = [c, ' ', d]) := by
  refine ⟨by decide, ?_, ?_, ?_⟩
  · intro c d hc hd k hk
    unfold collapseLetterSpacing
    rw [sentinelize_letter_gap hc hd k hk, joinRuns_no_pairs,
      desentinel_letter (asciiLetter_facts hc).2.2.2.1 (asciiLetter_facts hd).2.2.2.1]
  · intro c d hc hd
    obtain ⟨hc1, hc2, hc3, hc4, _⟩ := asciiLetter_facts hc
    obtain ⟨hd1, hd2, hd3, hd4, _⟩ := asciiLetter_facts hd
    unfold collapseLetterSpacing sentinelize
    have hs : sentAux ([c, '\t', d].length) false [c, '\t', d] = [c, sentinelChar, d] := by
      rw [show [c, '\t', d].length = 2 + 1 from rfl]
      rw [sentAux_cons, if_neg hc1, if_neg (by simp [hc2, hc3])]
      congr 1
      rw [show sentAux 2 false ['\t', d] = sentinelChar :: sentAux 1 false [d] from rfl]
      congr 1
      rw [show (1 : Nat) = 0 + 1 from rfl, sentAux_cons, if_neg hd1,
        if_neg (by simp [hd2, hd3])]
      rfl
    rw [hs, joinRuns_no_pairs, desentinel_letter hc4 hd4]
  · intro c d hc hd
    obtain ⟨hc1, hc2, hc3, hc4, _⟩ := asciiLetter_facts hc
    obtain ⟨hd1, hd2, hd3, hd4, _⟩ := asciiLetter_facts hd
    unfold collapseLetterSpacing sentinelize
    have hs : sentAux ([c, '\n', d].length) false [c, '\n', d] = [c, sentinelChar, d] := by
      rw [show [c, '\n', d].length = 2 + 1 from rfl]
      rw [sentAux_cons, if_neg hc1, if_neg (by simp [hc2, hc3])]
      congr 1
      rw [show sentAux 2 false ['\n', d] = sentinelChar :: sentAux 1 false [d] from rfl]
      congr 1
      rw [show (1 : Nat) = 0 + 1 from rfl, sentAux_cons, if_neg hd1,
        if_neg (by simp [hd2, hd3])]
      rfl
    rw [hs, joinRuns_no_pairs, desentinel_letter hc4 hd4]

/-- Counterexample for C3 as stated: normalizing
"a p p e l l a n t brief" does not leave "brief" as a separate token —
the greedy collapse match extends over the single space after the run
and absorbs the "b" of "brief", producing "appellantbrief". -/
theorem collapseLetterSpacing_boundaries_counterexample :
    normalizeChars "a p p e l l a n t brief".data = "appellantbrief".data
    ∧ normalizeChars "a p p e l l a n t brief".data ≠ "appellant brief".data := by
  decide

/-- Witness for C3 (amended): letters around a double space, a tab and a
newline are not joined. -/
theorem collapseLetterSpacing_boundaries_witness :
    collapseLetterSpacing ('a' :: (List.replicate 2 ' ' ++ ['b'])) = ['a', ' ', 'b']
    ∧ collapseLetterSpacing ['a', '\t', 'b'] = ['a', ' ', 'b']
    ∧ collapseLetterSpacing ['a', '\n', 'b'] = ['a', ' ', 'b'] :=
  ⟨collapseLetterSpacing_boundaries.2.1 'a' 'b' (by decide) (by decide) 2 (by decide),
   collapseLetterSpacing_boundaries.2.2.1 'a' 'b' (by decide) (by decide),
   collapseLetterSpacing_boundaries.2.2.2 'a' 'b' (by decide) (by decide)⟩

/-- Claim C7: the standalone-label fallback pass never returns APPELLANT
or APPELLEE (for any text at all); consequently, for every cover text on
which the phrase-anchored pass finds nothing and which matches none of
the standalone amicus / friend-of-the-court / cross-appeal patterns
(i.e. it contains at most bare appellant / appellee labels),
`classify_brief` returns UNKNOWN. -/
theorem classifyBrief_standalone_unknown (md : BriefMetadata) :
    (∀ cs : List Char,
      matchStandalone cs ≠ BriefType.appellant ∧ matchStandalone cs ≠ BriefType.appellee)
    ∧ (matchBriefPhrase (normalizeChars md.cover_text.data) = BriefType.unknown →
        amicusStandaloneSearch (normalizeChars md.cover_text.data) = false →
        friendCourtSearch (normalizeChars md.cover_text.data) = false →
        crossSearch (normalizeChars md.cover_text.data) = false →
        classifyBrief md = BriefType.unknown) := by
  constructor
  · intro cs
    unfold matchStandalone
    split_ifs <;> simp
  · intro h1 h2 h3 h4
    unfold classifyBrief classifyCover
    show (if matchBriefPhrase (normalizeChars md.cover_text.data) ≠ BriefType.unknown
      then matchBriefPhrase (normalizeChars md.cover_text.data)
      else matchStandalone (normalizeChars md.cover_text.data)) = BriefType.unknown
    rw [h1]
    simp only [ne_eq, not_true_eq_false, if_false, reduceIte]
    unfold matchStandalone
    rw [if_neg (by simp [h2]), if_neg (by simp [h3]), if_neg (by simp [h4])]

/-- Witness for C7: cover texts consisting of a bare party label
classify as UNKNOWN. -/
theorem classifyBrief_standalone_unknown_witness :
    classifyBrief { cover_text := "APPELLEE" } = BriefType.unknown
    ∧ classifyBrief { cover_text := "Appellant" } = BriefType.unknown :=
  ⟨(classifyBrief_standalone_unknown { cover_text := "APPELLEE" }).2
      (by decide) (by decide) (by decide) (by decide),
   (classifyBrief_standalone_unknown { cover_text := "Appellant" }).2
      (by decide) (by decide) (by decide) (by decide)⟩

end NDSC
